import Mathlib

/-!
# Snake on a 20×20 torus: the step function and the key handler

A shallow embedding of `snake.go`.  The mutable `*GameState` becomes a value
that every operation takes and returns.  Go's `int16` is `Int` reduced by
`wrap16` after every arithmetic operation.  The random source is a list of
outcomes of `rand.Intn`, consumed from the front; a run that needs more
outcomes than the list holds ends in `Fault.noAcceptedDraw`, which stands for a
rejection loop that is still running when the list is exhausted.  Go's run-time
panics (index out of range, nil dereference) are the other values of `Fault`.
-/

namespace Snake

/-! ## Machine integers -/

/-- Two's-complement reduction of an integer to the range of Go's `int16`. -/
def wrap16 (n : Int) : Int := (n + 32768) % 65536 - 32768

/-- The values an `int16` can hold. -/
def isInt16 (n : Int) : Prop := -32768 ≤ n ∧ n ≤ 32767

instance (n : Int) : Decidable (isInt16 n) := by unfold isInt16; infer_instance

/-! ## Data model -/

/-- The struct `Position` of the source: two `int16` fields. -/
structure Position where
  x : Int
  y : Int
  deriving DecidableEq, Repr

/-- The struct `GameState` of the source.  The field `apple` is a pointer in the
source; `none` is the nil pointer. -/
structure GameState where
  snake : List Position
  move : Position
  nextMove : Position
  points : Int
  apple : Option Position
  running : Bool
  deriving DecidableEq, Repr

/-- The ways a run of the source can fail to return. -/
inductive Fault where
  | indexOutOfRange
  | sliceOutOfRange
  | nilDereference
  | invalidArgument
  | noAcceptedDraw
  deriving DecidableEq, Repr

/-! ## Constants -/

def ARROW_LEFT : String := "ArrowLeft"
def ARROW_RIGHT : String := "ArrowRight"
def ARROW_UP : String := "ArrowUp"
def ARROW_DOWN : String := "ArrowDown"
def ARROW_PREFIX : String := "Arrow"

/-! ## Helpers of the source -/

/-- The function `newPosition`. -/
def newPosition (x : Int) (y : Int) : Position := { x := x, y := y }

/-- The function `processBound`: values above 19 become 0, values below 0 become 19. -/
def processBound (number : Int) : Int :=
  if number > 19 then 0
  else if number < 0 then 19
  else number

/-- The function `movePosition`: component-wise `int16` addition, then
`processBound` on each axis. -/
def movePosition (position : Position) (movePosition : Position) : Position :=
  { x := processBound (wrap16 (position.x + movePosition.x)),
    y := processBound (wrap16 (position.y + movePosition.y)) }

/-- The function `getHead`: the element at index `len(snake) - 1`; indexing an
empty slice panics. -/
def getHead (gameState : GameState) : Except Fault Position :=
  match gameState.snake[gameState.snake.length - 1]? with
  | some p => .ok p
  | none => .error .indexOutOfRange

/-- The function `filterPositions`: the loop appends each position that passes
`test` to an initially empty result. -/
def filterPositions (positions : List Position) (test : Position → Bool) : List Position :=
  positions.foldl (fun result position => if test position then result ++ [position] else result) []

/-- The function `isTheSamePosition`. -/
def isTheSamePosition (position : Position) : Position → Bool :=
  fun targetPosition => position.x == targetPosition.x && position.y == targetPosition.y

/-- The library call `rand.Intn(n)` on the outcome `r` of the random source: a
value in `[0, n)`, and a panic when `n ≤ 0`. -/
def randIntn (n : Int) (r : Nat) : Except Fault Int :=
  if n ≤ 0 then .error .invalidArgument else .ok ((r : Int) % n)

/-- The function `generateRandomNumber`: `int16(rand.Intn(int(max + 1)))`. -/
def generateRandomNumber (max : Int) (r : Nat) : Except Fault Int :=
  match randIntn (wrap16 (max + 1)) r with
  | .ok v => .ok (wrap16 v)
  | .error e => .error e

/-- The function `generateApplePosition`: each round of the loop consumes two
outcomes of the random source (x first, then y) and stops at the first position
that no snake segment equals. -/
def generateApplePosition (state : GameState) : List Nat → Except Fault (Position × List Nat)
  | r1 :: r2 :: rest =>
    match generateRandomNumber 19 r1, generateRandomNumber 19 r2 with
    | .ok x, .ok y =>
      if (filterPositions state.snake (isTheSamePosition (newPosition x y))).length = 0 then
        .ok (newPosition x y, rest)
      else generateApplePosition state rest
    | .error e, _ => .error e
    | .ok _, .error e => .error e
  | _ => .error .noAcceptedDraw

/-- The function `newDefaultGameState`. -/
def newDefaultGameState (draws : List Nat) : Except Fault (GameState × List Nat) :=
  let state : GameState :=
    { snake := [newPosition 10 10],
      move := newPosition 0 0,
      nextMove := newPosition 0 0,
      points := 2,
      apple := none,
      running := false }
  match generateApplePosition state draws with
  | .ok (p, rest) => .ok ({ state with apple := some p }, rest)
  | .error e => .error e

/-! ## The step function -/

/-- Lines 77-79 of `makeStep`: `nextMove` is committed unless it is the exact
`int16` negation of `move`. -/
def commitMove (state : GameState) : GameState :=
  if state.nextMove.x ≠ wrap16 (-state.move.x) ∨ state.nextMove.y ≠ wrap16 (-state.move.y) then
    { state with move := state.nextMove }
  else state

/-- Line 80 of `makeStep`: the moved head is appended to the snake. -/
def appendHead (state : GameState) : Except Fault GameState :=
  match getHead state with
  | .ok head => .ok { state with snake := state.snake ++ [movePosition head state.move] }
  | .error e => .error e

/-- Lines 81-83 of `makeStep`: at least two segments equal the head. -/
def collision (state : GameState) : Except Fault Bool :=
  match getHead state with
  | .ok head =>
    .ok (decide ((filterPositions state.snake
      (fun position => position.x == head.x && position.y == head.y)).length ≥ 2))
  | .error e => .error e

/-- Lines 87-90 of `makeStep`: when the head is on the apple, `points++` and the
apple is overwritten by a newly generated position. -/
def eatApple (state : GameState) (draws : List Nat) : Except Fault (GameState × List Nat) :=
  match getHead state, state.apple with
  | .error e, _ => .error e
  | .ok _, none => .error .nilDereference
  | .ok head, some apple =>
    if head.x = apple.x ∧ head.y = apple.y then
      let state := { state with points := wrap16 (state.points + 1) }
      match generateApplePosition state draws with
      | .ok (p, rest) => .ok ({ state with apple := some p }, rest)
      | .error e => .error e
    else .ok (state, draws)

/-- Lines 91-95 of `makeStep`: `snake[1:]` when `points <= 0`, else `points--`. -/
def growOrShrink (state : GameState) : Except Fault GameState :=
  if state.points ≤ 0 then
    match state.snake with
    | [] => .error .sliceOutOfRange
    | _ :: tail => .ok { state with snake := tail }
  else .ok { state with points := wrap16 (state.points - 1) }

/-- The function `makeStep`. -/
def makeStep (state : GameState) (draws : List Nat) : Except Fault (GameState × List Nat) :=
  if state.running then
    match appendHead (commitMove state) with
    | .error e => .error e
    | .ok state =>
      match collision state with
      | .error e => .error e
      | .ok true => newDefaultGameState draws
      | .ok false =>
        match eatApple state draws with
        | .error e => .error e
        | .ok (state, rest) =>
          match growOrShrink state with
          | .error e => .error e
          | .ok state => .ok (state, rest)
  else .ok (state, draws)

/-! ## The key handler -/

/-- The library call `strings.HasPrefix`. -/
def stringsHasPrefix (s : String) (pre : String) : Bool :=
  pre.toList.isPrefixOf s.toList

/-- The closure returned by `createKeyDownFunc`, applied to the key name. -/
def createKeyDownFunc (state : GameState) (name : String) : GameState :=
  let state :=
    if name = ARROW_LEFT then { state with nextMove := newPosition (-1) 0 }
    else if name = ARROW_RIGHT then { state with nextMove := newPosition 1 0 }
    else if name = ARROW_UP then { state with nextMove := newPosition 0 (-1) }
    else if name = ARROW_DOWN then { state with nextMove := newPosition 0 1 }
    else state
  if stringsHasPrefix name ARROW_PREFIX then { state with running := true } else state

/-! ## Reachable states -/

/-- The states the program can be in: the state built at start-up, and every
state obtained from a reachable one by a key press or by a tick that returns.
Each tick and the start-up may see any outcomes of the random source. -/
inductive Reachable : GameState → Prop where
  | init (draws rest : List Nat) (s : GameState) :
      newDefaultGameState draws = .ok (s, rest) → Reachable s
  | key (s : GameState) (name : String) :
      Reachable s → Reachable (createKeyDownFunc s name)
  | tick (s s' : GameState) (draws rest : List Nat) :
      Reachable s → makeStep s draws = .ok (s', rest) → Reachable s'

/-! ## Derived notions used to state the properties -/

/-- Both coordinates lie in `[0, 19]`. -/
def inGrid (p : Position) : Prop := (0 ≤ p.x ∧ p.x ≤ 19) ∧ (0 ≤ p.y ∧ p.y ≤ 19)

instance (p : Position) : Decidable (inGrid p) := by unfold inGrid; infer_instance

/-- The positions that the rounds of `generateApplePosition` try, in order, on a
given list of outcomes of the random source. -/
def candidates : List Nat → List Position
  | r1 :: r2 :: rest => newPosition ((r1 % 20 : Nat) : Int) ((r2 % 20 : Nat) : Int) :: candidates rest
  | _ => []

/-- The wrapped new head of a tick: the head moved by the committed direction. -/
def newHead (s : GameState) (head : Position) : Position :=
  movePosition head (commitMove s).move

/-- The state after lines 77-80: direction committed and the moved head appended. -/
def extended (s : GameState) (head : Position) : GameState :=
  { commitMove s with snake := s.snake ++ [newHead s head] }

/-- The ticker loop of `main` run for `n` ticks: `makeStep` applied `n` times,
each tick consuming the outcomes the previous one left. -/
def makeSteps : Nat → GameState → List Nat → Except Fault (GameState × List Nat)
  | 0, state, draws => .ok (state, draws)
  | n + 1, state, draws =>
    match makeStep state draws with
    | .ok (state, rest) => makeSteps n state rest
    | .error e => .error e

/-- The key handler as the specification words it: the four recognized names
map to unit vectors stored in `nextMove`, every other name leaves `nextMove`
alone; a name that begins with the directional prefix sets `running`; nothing
else is written. -/
def keyHandlerReference (s : GameState) (name : String) : GameState :=
  { snake := s.snake,
    move := s.move,
    nextMove :=
      if name = "ArrowLeft" then newPosition (-1) 0
      else if name = "ArrowRight" then newPosition 1 0
      else if name = "ArrowUp" then newPosition 0 (-1)
      else if name = "ArrowDown" then newPosition 0 1
      else s.nextMove,
    points := s.points,
    apple := s.apple,
    running := s.running || stringsHasPrefix name "Arrow" }

/-- The apple is set and lies on no snake segment. -/
def appleFree (s : GameState) : Prop := ∃ a, s.apple = some a ∧ a ∉ s.snake

/-- The snake is non-empty and has no two equal segments. -/
def snakeOk (s : GameState) : Prop := s.snake ≠ [] ∧ s.snake.Nodup

/-- The state `newDefaultGameState` builds when the rejection loop settles on `a`. -/
def defaultState (a : Position) : GameState :=
  { snake := [newPosition 10 10],
    move := newPosition 0 0,
    nextMove := newPosition 0 0,
    points := 2,
    apple := some a,
    running := false }

/-! ## Concrete states of one game

The game starts with the apple at (11,10); the player presses right, down,
left and up, with one tick after each of the first three keys. -/

/-- After "ArrowRight" and one tick: the apple at (11,10) was eaten and the new
apple is at (0,0). -/
def afterRight : GameState :=
  { snake := [newPosition 10 10, newPosition 11 10],
    move := newPosition 1 0,
    nextMove := newPosition 1 0,
    points := 2,
    apple := some (newPosition 0 0),
    running := true }

/-- After "ArrowDown" and one more tick. -/
def afterDown : GameState :=
  { snake := [newPosition 10 10, newPosition 11 10, newPosition 11 11],
    move := newPosition 0 1,
    nextMove := newPosition 0 1,
    points := 1,
    apple := some (newPosition 0 0),
    running := true }

/-- After "ArrowLeft" and one more tick. -/
def afterLeft : GameState :=
  { snake := [newPosition 10 10, newPosition 11 10, newPosition 11 11, newPosition 10 11],
    move := newPosition (-1) 0,
    nextMove := newPosition (-1) 0,
    points := 0,
    apple := some (newPosition 0 0),
    running := true }

/-- After "ArrowUp", before the next tick: the head at (10,11) is about to move
up onto the tail at (10,10). -/
def squareState : GameState :=
  { afterLeft with nextMove := newPosition 0 (-1) }

/-- One of the four unit directions. -/
def isUnit (v : Position) : Prop :=
  v = newPosition 1 0 ∨ v = newPosition (-1) 0 ∨ v = newPosition 0 1 ∨ v = newPosition 0 (-1)

instance (v : Position) : Decidable (isUnit v) := by unfold isUnit; infer_instance

/-- The exact negation of a direction vector, component by component. -/
def negate (v : Position) : Position := newPosition (-v.x) (-v.y)

/-- The wrap scenario of the specification: a two-segment snake at the right
edge moving right, the apple just across the edge, the growth budget used up. -/
def edgeState : GameState :=
  { snake := [newPosition 18 10, newPosition 19 10],
    move := newPosition 1 0,
    nextMove := newPosition 1 0,
    points := 0,
    apple := some (newPosition 0 10),
    running := true }

/-- The wrap scenario with the largest `int16` in `points`. -/
def edgeStateMaxPoints : GameState := { edgeState with points := 32767 }

/-- The key handler run on a sequence of key names, the presses between two ticks. -/
def pressKeys (s : GameState) (names : List String) : GameState :=
  names.foldl createKeyDownFunc s

/-- After a fourth tick to the left from `afterLeft`: the tail (10,10) is gone. -/
def afterShrink : GameState :=
  { afterLeft with
      snake := [newPosition 11 10, newPosition 11 11, newPosition 10 11, newPosition 9 11] }

/-! ## Invariants of the reachable states -/

/-- One of the five direction vectors a state can hold: zero or a unit direction. -/
def isDirection (v : Position) : Prop := v = newPosition 0 0 ∨ isUnit v

instance (v : Position) : Decidable (isDirection v) := by unfold isDirection; infer_instance

/-- The grid invariant: every segment and the apple are in the grid, and both
direction fields hold one of the five direction vectors. -/
def gridOk (s : GameState) : Prop :=
  (∀ p ∈ s.snake, inGrid p) ∧ (∃ a, s.apple = some a ∧ inGrid a) ∧
    isDirection s.move ∧ isDirection s.nextMove

/-- The two arguments `movePosition` hands to `processBound` on a tick. -/
def boundArgs (s : GameState) (head : Position) : Int × Int :=
  (wrap16 (head.x + (commitMove s).move.x), wrap16 (head.y + (commitMove s).move.y))

/-- The 400 cells of the 20x20 grid, column by column. -/
def gridCells : List Position :=
  (List.range 20).flatMap fun (x : Nat) =>
    (List.range 20).map fun (y : Nat) => newPosition (Int.ofNat x) (Int.ofNat y)

/-- The number of segments of a snake equal to a given position, counted the way
`makeStep` counts them: the length of what `filterPositions` keeps. -/
def headCount (snake : List Position) (head : Position) : Nat :=
  (filterPositions snake (fun position => position.x == head.x && position.y == head.y)).length

/-- The growth budget stays within [0, 2]. -/
def pointsOk (s : GameState) : Prop := 0 ≤ s.points ∧ s.points ≤ 2

/-- The neck invariant: whenever the snake ends in a neck and a head, the head is
the neck moved by `move`, and `move` is a unit direction. -/
def neckOk (s : GameState) : Prop :=
  ∀ neck head, [neck, head] <:+ s.snake → head = movePosition neck s.move ∧ isUnit s.move

/-! ## A game that fills the grid -/

/-- A path through all 400 cells of the torus: cell `k` lies in row `10 + k / 20`;
each row is walked to the right for 19 steps, starting one column further left
than the row above. -/
def pathCell (k : Nat) : Position :=
  newPosition (Int.ofNat ((10 + 19 * (k / 20) + k % 20) % 20)) (Int.ofNat ((10 + k / 20) % 20))

/-- The direction from cell `k` of the path to cell `k + 1`: down at the end of a
row, right otherwise. -/
def pathDir (k : Nat) : Position :=
  if k % 20 = 19 then newPosition 0 1 else newPosition 1 0

/-- The key that asks for `pathDir k`. -/
def pathKey (k : Nat) : String :=
  if k % 20 = 19 then "ArrowDown" else "ArrowRight"

/-- The state after `k` ticks along the path, every tick eating the apple and the
random source placing the next apple on the next cell of the path. -/
def pathState (k : Nat) : GameState :=
  { snake := (List.range (k + 1)).map pathCell,
    move := pathDir (k - 1),
    nextMove := pathDir (k - 1),
    points := 2,
    apple := some (pathCell (k + 1)),
    running := true }

/-! ## Basic facts about the helpers -/

theorem Position.eq_iff (p q : Position) : p = q ↔ p.x = q.x ∧ p.y = q.y := by
  cases p; cases q; simp

theorem samePosition_eq_decide (p h : Position) :
    (p.x == h.x && p.y == h.y) = decide (p = h) := by
  cases p; cases h
  simp only [Position.mk.injEq, Bool.decide_and]
  rfl

theorem filterPositions_foldl (ps : List Position) (test : Position → Bool) (acc : List Position) :
    ps.foldl (fun result position => if test position then result ++ [position] else result) acc
      = acc ++ ps.filter test := by
  induction ps generalizing acc with
  | nil => simp
  | cons p ps ih =>
    simp only [List.foldl_cons, List.filter_cons]
    rw [ih]
    by_cases hp : test p = true <;> simp [hp]

theorem filterPositions_eq_filter (ps : List Position) (test : Position → Bool) :
    filterPositions ps test = ps.filter test := by
  unfold filterPositions
  rw [filterPositions_foldl]
  simp

theorem filter_same_length_zero (ps : List Position) (p : Position) :
    (filterPositions ps (isTheSamePosition p)).length = 0 ↔ p ∉ ps := by
  rw [filterPositions_eq_filter, List.length_eq_zero, List.filter_eq_nil_iff]
  constructor
  · intro h hp
    have := h p hp
    simp [isTheSamePosition] at this
  · intro h q hq
    simp only [isTheSamePosition, samePosition_eq_decide, decide_eq_true_eq]
    rintro rfl
    exact h hq

theorem getHead_eq_getLast (s : GameState) :
    getHead s = match s.snake.getLast? with
      | some p => .ok p
      | none => .error .indexOutOfRange := by
  unfold getHead
  rw [List.getLast?_eq_getElem?]

theorem getHead_concat (s : GameState) (xs : List Position) (h : Position) (hs : s.snake = xs ++ [h]) :
    getHead s = .ok h := by
  rw [getHead_eq_getLast, hs]
  simp

theorem getHead_nil (s : GameState) (hs : s.snake = []) : getHead s = .error .indexOutOfRange := by
  rw [getHead_eq_getLast, hs]
  simp

theorem collision_concat (s : GameState) (xs : List Position) (h : Position)
    (hs : s.snake = xs ++ [h]) : collision s = .ok (decide (h ∈ xs)) := by
  unfold collision
  rw [getHead_concat s xs h hs, hs]
  simp only [filterPositions_eq_filter, samePosition_eq_decide, List.filter_append, List.length_append]
  congr 1
  have h1 : (List.filter (fun position => decide (position = h)) [h]).length = 1 := by simp
  rw [h1]
  by_cases hm : h ∈ xs
  · have : 0 < (List.filter (fun position => decide (position = h)) xs).length := by
      rw [List.length_pos]
      intro hnil
      rw [List.filter_eq_nil_iff] at hnil
      exact absurd (hnil h hm) (by simp)
    simp [hm]
    omega
  · have : List.filter (fun position => decide (position = h)) xs = [] := by
      rw [List.filter_eq_nil_iff]
      intro q hq
      simp only [decide_eq_true_eq]
      rintro rfl
      exact hm hq
    simp [hm, this]


theorem generateRandomNumber_19 (r : Nat) :
    generateRandomNumber 19 r = .ok (((r % 20 : Nat) : Int)) := by
  have h20 : wrap16 (19 + 1) = 20 := by unfold wrap16; norm_num
  unfold generateRandomNumber randIntn
  rw [h20]
  have hw : wrap16 ((r : Int) % 20) = ((r % 20 : Nat) : Int) := by unfold wrap16; omega
  simp only [show ¬ ((20 : Int) ≤ 0) by decide, if_false, hw]

theorem generateApplePosition_cons (s : GameState) (r1 r2 : Nat) (rest : List Nat) :
    generateApplePosition s (r1 :: r2 :: rest) =
      if newPosition ((r1 % 20 : Nat) : Int) ((r2 % 20 : Nat) : Int) ∈ s.snake then
        generateApplePosition s rest
      else .ok (newPosition ((r1 % 20 : Nat) : Int) ((r2 % 20 : Nat) : Int), rest) := by
  rw [generateApplePosition]
  simp only [generateRandomNumber_19, filter_same_length_zero]
  by_cases h : newPosition ((r1 % 20 : Nat) : Int) ((r2 % 20 : Nat) : Int) ∈ s.snake <;> simp [h]

theorem generateApplePosition_short (s : GameState) (d : List Nat) (h : d.length < 2) :
    generateApplePosition s d = .error .noAcceptedDraw := by
  match d, h with
  | [], _ => rfl
  | [_], _ => rfl

theorem generateApplePosition_ok_aux (s : GameState) (n : Nat) :
    ∀ (d : List Nat), d.length ≤ n → ∀ (p : Position) (rest : List Nat),
      generateApplePosition s d = .ok (p, rest) →
      (0 ≤ p.x ∧ p.x ≤ 19) ∧ (0 ≤ p.y ∧ p.y ≤ 19) ∧ p ∉ s.snake ∧ rest.length < d.length := by
  induction n with
  | zero =>
    intro d hd p rest h
    rw [generateApplePosition_short s d (by omega)] at h
    cases h
  | succ n ih =>
    intro d hd p rest h
    match d, hd with
    | [], _ => rw [generateApplePosition_short s [] (by simp)] at h; cases h
    | [a], _ => rw [generateApplePosition_short s [a] (by simp)] at h; cases h
    | r1 :: r2 :: tl, hd =>
      rw [generateApplePosition_cons] at h
      split at h
      · have := ih tl (by simp at hd; omega) p rest h
        refine ⟨this.1, this.2.1, this.2.2.1, ?_⟩
        have := this.2.2.2
        simp only [List.length_cons]
        omega
      · rename_i hnot
        simp only [Except.ok.injEq, Prod.mk.injEq] at h
        obtain ⟨rfl, rfl⟩ := h
        refine ⟨?_, ?_, hnot, by simp only [List.length_cons]; omega⟩
        · simp only [newPosition]; omega
        · simp only [newPosition]; omega


theorem generateApplePosition_ok (s : GameState) (d rest : List Nat) (p : Position)
    (h : generateApplePosition s d = .ok (p, rest)) :
    (0 ≤ p.x ∧ p.x ≤ 19) ∧ (0 ≤ p.y ∧ p.y ≤ 19) ∧ p ∉ s.snake ∧ rest.length < d.length :=
  generateApplePosition_ok_aux s d.length d (Nat.le_refl _) p rest h

theorem generateApplePosition_snake (s t : GameState) (hs : s.snake = t.snake) (d : List Nat) :
    generateApplePosition s d = generateApplePosition t d := by
  generalize hn : d.length = n
  induction n using Nat.strong_induction_on generalizing d with
  | _ n ih =>
    match d, hn with
    | [], _ => rfl
    | [_], _ => rfl
    | r1 :: r2 :: tl, hn =>
      rw [generateApplePosition_cons, generateApplePosition_cons, hs]
      rw [ih tl.length (by simp only [List.length_cons] at hn; omega) tl rfl]

theorem generateApplePosition_accept (s : GameState) (p : Position)
    (hx : 0 ≤ p.x ∧ p.x ≤ 19) (hy : 0 ≤ p.y ∧ p.y ≤ 19) (hp : p ∉ s.snake) (rest : List Nat) :
    generateApplePosition s (p.x.toNat :: p.y.toNat :: rest) = .ok (p, rest) := by
  have h1 : ((p.x.toNat % 20 : Nat) : Int) = p.x := by omega
  have h2 : ((p.y.toNat % 20 : Nat) : Int) = p.y := by omega
  rw [generateApplePosition_cons, h1, h2]
  have : newPosition p.x p.y = p := rfl
  rw [this, if_neg hp]

theorem commitMove_snake (s : GameState) : (commitMove s).snake = s.snake := by
  unfold commitMove; split <;> rfl

theorem commitMove_points (s : GameState) : (commitMove s).points = s.points := by
  unfold commitMove; split <;> rfl

theorem commitMove_apple (s : GameState) : (commitMove s).apple = s.apple := by
  unfold commitMove; split <;> rfl

theorem commitMove_running (s : GameState) : (commitMove s).running = s.running := by
  unfold commitMove; split <;> rfl

theorem commitMove_nextMove (s : GameState) : (commitMove s).nextMove = s.nextMove := by
  unfold commitMove; split <;> rfl


theorem appendHead_commit (s : GameState) (xs : List Position) (head : Position)
    (hs : s.snake = xs ++ [head]) :
    appendHead (commitMove s) = .ok (extended s head) := by
  unfold appendHead
  rw [getHead_concat (commitMove s) xs head (by rw [commitMove_snake, hs])]
  simp only [extended, newHead, commitMove_snake]

theorem makeStep_stopped (s : GameState) (d : List Nat) (hr : s.running = false) :
    makeStep s d = .ok (s, d) := by
  unfold makeStep
  simp [hr]

theorem makeStep_empty (s : GameState) (d : List Nat) (hr : s.running = true)
    (hs : s.snake = []) : makeStep s d = .error .indexOutOfRange := by
  unfold makeStep appendHead
  rw [getHead_nil (commitMove s) (by rw [commitMove_snake, hs])]
  simp [hr]

theorem makeStep_running (s : GameState) (d : List Nat) (xs : List Position) (head : Position)
    (hr : s.running = true) (hs : s.snake = xs ++ [head]) :
    makeStep s d =
      if newHead s head ∈ s.snake then newDefaultGameState d
      else
        match eatApple (extended s head) d with
        | .error e => .error e
        | .ok (state, rest) =>
          match growOrShrink state with
          | .error e => .error e
          | .ok state => .ok (state, rest) := by
  unfold makeStep
  simp only [hr, if_true, appendHead_commit s xs head hs]
  rw [collision_concat (extended s head) s.snake (newHead s head) rfl]
  by_cases hc : newHead s head ∈ s.snake
  · simp [hc]
  · simp only [hc, decide_False, if_false]

theorem makeStep_collide (s : GameState) (d : List Nat) (xs : List Position) (head : Position)
    (hr : s.running = true) (hs : s.snake = xs ++ [head])
    (hc : newHead s head ∈ s.snake) :
    makeStep s d = newDefaultGameState d := by
  rw [makeStep_running s d xs head hr hs, if_pos hc]

theorem eatApple_miss (s : GameState) (d : List Nat) (xs : List Position) (h a : Position)
    (hs : s.snake = xs ++ [h]) (ha : s.apple = some a) (hne : h ≠ a) :
    eatApple s d = .ok (s, d) := by
  unfold eatApple
  rw [getHead_concat s xs h hs, ha]
  have : ¬ (h.x = a.x ∧ h.y = a.y) := fun hh => hne ((Position.eq_iff h a).2 hh)
  simp [this]

theorem eatApple_hit (s : GameState) (d : List Nat) (xs : List Position) (h : Position)
    (hs : s.snake = xs ++ [h]) (ha : s.apple = some h) :
    eatApple s d =
      match generateApplePosition s d with
      | .ok (p, rest) => .ok ({ s with points := wrap16 (s.points + 1), apple := some p }, rest)
      | .error e => .error e := by
  unfold eatApple
  rw [getHead_concat s xs h hs, ha]
  simp only [and_self, if_true]
  have hg : ∀ (pts : Int) (ap : Option Position),
      generateApplePosition { s with points := pts, apple := ap } d = generateApplePosition s d :=
    fun pts ap => generateApplePosition_snake { s with points := pts, apple := ap } s rfl d
  rw [hg]

theorem eatApple_nil (s : GameState) (d : List Nat) (xs : List Position) (h : Position)
    (hs : s.snake = xs ++ [h]) (ha : s.apple = none) :
    eatApple s d = .error .nilDereference := by
  unfold eatApple
  rw [getHead_concat s xs h hs, ha]

/-! ## Closed forms of a tick -/

theorem getHead_ok (s : GameState) (head : Position) (h : getHead s = .ok head) :
    ∃ xs, s.snake = xs ++ [head] := by
  rcases List.eq_nil_or_concat s.snake with hn | ⟨xs, l, hl⟩
  · rw [getHead_nil s hn] at h
    cases h
  · rw [List.concat_eq_append] at hl
    rw [getHead_concat s xs l hl] at h
    cases h
    exact ⟨xs, hl⟩

theorem getHead_mem (s : GameState) (head : Position) (h : getHead s = .ok head) :
    head ∈ s.snake := by
  obtain ⟨xs, hs⟩ := getHead_ok s head h
  rw [hs]
  simp

theorem growOrShrink_shrink (s : GameState) (hp : s.points ≤ 0) (hs : s.snake ≠ []) :
    growOrShrink s = .ok { s with snake := s.snake.tail } := by
  unfold growOrShrink
  rw [if_pos hp]
  cases hsn : s.snake with
  | nil => exact absurd hsn hs
  | cons a tl => rfl

theorem growOrShrink_grow (s : GameState) (hp : 0 < s.points) :
    growOrShrink s = .ok { s with points := wrap16 (s.points - 1) } := by
  unfold growOrShrink
  rw [if_neg (by omega)]

theorem extended_snake (s : GameState) (head : Position) :
    (extended s head).snake = s.snake ++ [newHead s head] := rfl

theorem extended_points (s : GameState) (head : Position) :
    (extended s head).points = s.points := commitMove_points s

theorem extended_apple (s : GameState) (head : Position) :
    (extended s head).apple = s.apple := commitMove_apple s

theorem extended_running (s : GameState) (head : Position) :
    (extended s head).running = s.running := commitMove_running s

theorem extended_nextMove (s : GameState) (head : Position) :
    (extended s head).nextMove = s.nextMove := commitMove_nextMove s

theorem extended_move (s : GameState) (head : Position) :
    (extended s head).move = (commitMove s).move := rfl

/-- A tick that neither collides nor eats: the closed form of the result. -/
theorem makeStep_miss (s : GameState) (d : List Nat) (head a : Position)
    (hr : s.running = true) (hh : getHead s = .ok head)
    (hc : newHead s head ∉ s.snake) (ha : s.apple = some a) (hne : newHead s head ≠ a) :
    makeStep s d = .ok
      (if s.points ≤ 0 then { extended s head with snake := (s.snake ++ [newHead s head]).tail }
       else { extended s head with points := wrap16 (s.points - 1) }, d) := by
  obtain ⟨xs, hs⟩ := getHead_ok s head hh
  rw [makeStep_running s d xs head hr hs, if_neg hc,
    eatApple_miss (extended s head) d s.snake (newHead s head) a rfl
      (by rw [extended_apple, ha]) hne]
  simp only
  by_cases hp : s.points ≤ 0
  · rw [growOrShrink_shrink (extended s head) (by rw [extended_points]; exact hp)
      (by rw [extended_snake]; simp), if_pos hp]
    rfl
  · rw [growOrShrink_grow (extended s head) (by rw [extended_points]; omega), if_neg hp]
    rw [extended_points]

/-- A tick that does not collide and eats: the closed form of the result. -/
theorem makeStep_hit (s : GameState) (d rest : List Nat) (head p : Position)
    (hr : s.running = true) (hh : getHead s = .ok head)
    (hc : newHead s head ∉ s.snake) (ha : s.apple = some (newHead s head))
    (hg : generateApplePosition (extended s head) d = .ok (p, rest)) :
    makeStep s d = .ok
      (if wrap16 (s.points + 1) ≤ 0 then
        { extended s head with
            snake := (s.snake ++ [newHead s head]).tail,
            points := wrap16 (s.points + 1), apple := some p }
       else
        { extended s head with
            points := wrap16 (wrap16 (s.points + 1) - 1), apple := some p }, rest) := by
  obtain ⟨xs, hs⟩ := getHead_ok s head hh
  rw [makeStep_running s d xs head hr hs, if_neg hc,
    eatApple_hit (extended s head) d s.snake (newHead s head) rfl
      (by rw [extended_apple, ha]), hg]
  simp only [extended_points]
  by_cases hp : wrap16 (s.points + 1) ≤ 0
  · rw [growOrShrink_shrink _ hp (by simp [extended_snake]), if_pos hp]
    rfl
  · rw [growOrShrink_grow _ (by simp only; omega), if_neg hp]

theorem makeStep_hit_error (s : GameState) (d : List Nat) (head : Position) (e : Fault)
    (hr : s.running = true) (hh : getHead s = .ok head)
    (hc : newHead s head ∉ s.snake) (ha : s.apple = some (newHead s head))
    (hg : generateApplePosition (extended s head) d = .error e) :
    makeStep s d = .error e := by
  obtain ⟨xs, hs⟩ := getHead_ok s head hh
  rw [makeStep_running s d xs head hr hs, if_neg hc,
    eatApple_hit (extended s head) d s.snake (newHead s head) rfl
      (by rw [extended_apple, ha]), hg]

theorem makeStep_nil_apple (s : GameState) (d : List Nat) (head : Position)
    (hr : s.running = true) (hh : getHead s = .ok head)
    (hc : newHead s head ∉ s.snake) (ha : s.apple = none) :
    makeStep s d = .error .nilDereference := by
  obtain ⟨xs, hs⟩ := getHead_ok s head hh
  rw [makeStep_running s d xs head hr hs, if_neg hc,
    eatApple_nil (extended s head) d s.snake (newHead s head) rfl
      (by rw [extended_apple, ha])]

theorem makeStep_collision (s : GameState) (d : List Nat) (head : Position)
    (hr : s.running = true) (hh : getHead s = .ok head)
    (hc : newHead s head ∈ s.snake) :
    makeStep s d = newDefaultGameState d := by
  obtain ⟨xs, hs⟩ := getHead_ok s head hh
  exact makeStep_collide s d xs head hr hs hc


theorem candidates_cons (r1 r2 : Nat) (rest : List Nat) :
    candidates (r1 :: r2 :: rest) =
      newPosition ((r1 % 20 : Nat) : Int) ((r2 % 20 : Nat) : Int) :: candidates rest := rfl

theorem candidates_short (d : List Nat) (h : d.length < 2) : candidates d = [] := by
  match d, h with
  | [], _ => rfl
  | [_], _ => rfl

/-- The rejection loop returns as soon as one of the positions it tries is free. -/
theorem generateApplePosition_returns (s : GameState) (d : List Nat)
    (h : ∃ p ∈ candidates d, p ∉ s.snake) :
    ∃ p rest, generateApplePosition s d = .ok (p, rest) := by
  generalize hn : d.length = n
  induction n using Nat.strong_induction_on generalizing d with
  | _ n ih =>
    match d, hn with
    | [], _ => simp [candidates_short] at h
    | [_], _ => simp [candidates_short] at h
    | r1 :: r2 :: tl, hn =>
      rw [generateApplePosition_cons]
      by_cases hm : newPosition ((r1 % 20 : Nat) : Int) ((r2 % 20 : Nat) : Int) ∈ s.snake
      · rw [if_pos hm]
        apply ih tl.length (by simp only [List.length_cons] at hn; omega) tl _ rfl
        obtain ⟨p, hp, hps⟩ := h
        rw [candidates_cons, List.mem_cons] at hp
        rcases hp with rfl | hp
        · exact absurd hm hps
        · exact ⟨p, hp, hps⟩
      · rw [if_neg hm]
        exact ⟨_, _, rfl⟩

/-- The rejection loop never panics: it fails only by exhausting the outcomes,
and then every position it tried was on the snake. -/
theorem generateApplePosition_error (s : GameState) (d : List Nat) (e : Fault)
    (h : generateApplePosition s d = .error e) :
    e = .noAcceptedDraw ∧ ∀ p ∈ candidates d, p ∈ s.snake := by
  generalize hn : d.length = n at h
  induction n using Nat.strong_induction_on generalizing d with
  | _ n ih =>
    match d, hn with
    | [], _ =>
      rw [generateApplePosition_short s [] (by simp)] at h
      cases h
      simp [candidates_short]
    | [a], _ =>
      rw [generateApplePosition_short s [a] (by simp)] at h
      cases h
      simp [candidates_short]
    | r1 :: r2 :: tl, hn =>
      rw [generateApplePosition_cons] at h
      split at h
      · rename_i hm
        have := ih tl.length (by simp only [List.length_cons] at hn; omega) tl h rfl
        refine ⟨this.1, ?_⟩
        intro p hp
        rw [candidates_cons, List.mem_cons] at hp
        rcases hp with rfl | hp
        · exact hm
        · exact this.2 p hp
      · cases h

theorem newDefaultGameState_ok (d rest : List Nat) (s : GameState)
    (h : newDefaultGameState d = .ok (s, rest)) :
    ∃ a, s = defaultState a ∧ inGrid a ∧ a ≠ newPosition 10 10 ∧ rest.length < d.length := by
  unfold newDefaultGameState at h
  simp only at h
  split at h
  · rename_i p rest' hg
    simp only [Except.ok.injEq, Prod.mk.injEq] at h
    obtain ⟨rfl, rfl⟩ := h
    have := generateApplePosition_ok _ d rest' p hg
    refine ⟨p, rfl, ⟨this.1, this.2.1⟩, ?_, this.2.2.2⟩
    intro hp
    exact this.2.2.1 (by rw [hp]; simp)
  · cases h

theorem newDefaultGameState_returns (d : List Nat)
    (h : ∃ p ∈ candidates d, p ≠ newPosition 10 10) :
    ∃ s rest, newDefaultGameState d = .ok (s, rest) := by
  unfold newDefaultGameState
  simp only
  obtain ⟨p, hp, hne⟩ := h
  obtain ⟨q, rest, hq⟩ := generateApplePosition_returns
    { snake := [newPosition 10 10], move := newPosition 0 0, nextMove := newPosition 0 0,
      points := 2, apple := none, running := false } d ⟨p, hp, by simpa using hne⟩
  rw [hq]
  exact ⟨_, _, rfl⟩

theorem newDefaultGameState_error (d : List Nat) (e : Fault)
    (h : newDefaultGameState d = .error e) : e = .noAcceptedDraw := by
  unfold newDefaultGameState at h
  simp only at h
  split at h
  · cases h
  · rename_i e' hg
    cases h
    exact (generateApplePosition_error _ d e hg).1

/-! ## Inversion of a tick and the two invariants -/

/-- Inversion of a tick that returns: it was idle, or a reset, or a plain move, or
a move onto the apple. -/
theorem makeStep_ok_cases (s s' : GameState) (d rest : List Nat)
    (h : makeStep s d = .ok (s', rest)) :
    (s.running = false ∧ s' = s ∧ rest = d) ∨
    (∃ head, s.running = true ∧ getHead s = .ok head ∧
      ((newHead s head ∈ s.snake ∧ newDefaultGameState d = .ok (s', rest)) ∨
       (newHead s head ∉ s.snake ∧ ∃ a, s.apple = some a ∧
          ((newHead s head ≠ a ∧ rest = d ∧
              s' = (if s.points ≤ 0 then
                      { extended s head with snake := (s.snake ++ [newHead s head]).tail }
                    else { extended s head with points := wrap16 (s.points - 1) })) ∨
           (newHead s head = a ∧ ∃ p, generateApplePosition (extended s head) d = .ok (p, rest) ∧
              s' = (if wrap16 (s.points + 1) ≤ 0 then
                      { extended s head with
                          snake := (s.snake ++ [newHead s head]).tail,
                          points := wrap16 (s.points + 1), apple := some p }
                    else
                      { extended s head with
                          points := wrap16 (wrap16 (s.points + 1) - 1), apple := some p })))))) := by
  cases hr : s.running with
  | false =>
    rw [makeStep_stopped s d hr] at h
    simp only [Except.ok.injEq, Prod.mk.injEq] at h
    exact Or.inl ⟨rfl, h.1.symm, h.2.symm⟩
  | true =>
    right
    rcases List.eq_nil_or_concat s.snake with hn | ⟨xs, head, hl⟩
    · rw [makeStep_empty s d hr hn] at h
      cases h
    · rw [List.concat_eq_append] at hl
      have hh : getHead s = .ok head := getHead_concat s xs head hl
      refine ⟨head, rfl, hh, ?_⟩
      by_cases hc : newHead s head ∈ s.snake
      · left
        rw [makeStep_collision s d head hr hh hc] at h
        exact ⟨hc, h⟩
      · right
        refine ⟨hc, ?_⟩
        cases ha : s.apple with
        | none =>
          rw [makeStep_nil_apple s d head hr hh hc ha] at h
          cases h
        | some a =>
          refine ⟨a, rfl, ?_⟩
          by_cases hne : newHead s head = a
          · right
            subst hne
            refine ⟨rfl, ?_⟩
            cases hg : generateApplePosition (extended s head) d with
            | error e =>
              rw [makeStep_hit_error s d head e hr hh hc ha hg] at h
              cases h
            | ok pr =>
              obtain ⟨p, r⟩ := pr
              rw [makeStep_hit s d r head p hr hh hc ha hg] at h
              simp only [Except.ok.injEq, Prod.mk.injEq] at h
              obtain ⟨h1, rfl⟩ := h
              exact ⟨p, rfl, h1.symm⟩
          · left
            rw [makeStep_miss s d head a hr hh hc ha hne] at h
            simp only [Except.ok.injEq, Prod.mk.injEq] at h
            exact ⟨hne, h.2.symm, h.1.symm⟩

theorem createKeyDownFunc_snake (s : GameState) (name : String) :
    (createKeyDownFunc s name).snake = s.snake := by
  unfold createKeyDownFunc
  simp only
  split_ifs <;> rfl

theorem createKeyDownFunc_apple (s : GameState) (name : String) :
    (createKeyDownFunc s name).apple = s.apple := by
  unfold createKeyDownFunc
  simp only
  split_ifs <;> rfl

theorem createKeyDownFunc_points (s : GameState) (name : String) :
    (createKeyDownFunc s name).points = s.points := by
  unfold createKeyDownFunc
  simp only
  split_ifs <;> rfl

theorem createKeyDownFunc_move (s : GameState) (name : String) :
    (createKeyDownFunc s name).move = s.move := by
  unfold createKeyDownFunc
  simp only
  split_ifs <;> rfl



theorem appleFree_makeStep (s s' : GameState) (d rest : List Nat)
    (hi : appleFree s) (h : makeStep s d = .ok (s', rest)) : appleFree s' := by
  rcases makeStep_ok_cases s s' d rest h with ⟨_, rfl, _⟩ | ⟨head, _, hh, hcase⟩
  · exact hi
  · rcases hcase with ⟨_, hnew⟩ | ⟨hc, a, ha, hcase⟩
    · obtain ⟨a, rfl, _, hne, _⟩ := newDefaultGameState_ok d rest s' hnew
      exact ⟨a, rfl, by simpa [defaultState] using hne⟩
    · obtain ⟨b, hb, hbs⟩ := hi
      rw [ha] at hb
      cases hb
      rcases hcase with ⟨hne, _, rfl⟩ | ⟨_, p, hg, rfl⟩
      · have hfree : a ∉ s.snake ++ [newHead s head] := by
          simp only [List.mem_append, List.mem_singleton, not_or]
          exact ⟨hbs, fun h => hne h.symm⟩
        refine ⟨a, ?_, ?_⟩
        · split_ifs <;> simp only [extended_apple, ha]
        · split_ifs
          · exact fun hm => hfree (List.mem_of_mem_tail hm)
          · exact hfree
      · have hp := (generateApplePosition_ok _ d rest p hg).2.2.1
        rw [extended_snake] at hp
        refine ⟨p, ?_, ?_⟩
        · split_ifs <;> rfl
        · split_ifs
          · exact fun hm => hp (List.mem_of_mem_tail hm)
          · exact hp

theorem snakeOk_makeStep (s s' : GameState) (d rest : List Nat)
    (hi : snakeOk s) (h : makeStep s d = .ok (s', rest)) : snakeOk s' := by
  rcases makeStep_ok_cases s s' d rest h with ⟨_, rfl, _⟩ | ⟨head, _, hh, hcase⟩
  · exact hi
  · rcases hcase with ⟨_, hnew⟩ | ⟨hc, a, ha, hcase⟩
    · obtain ⟨a, rfl, _, _, _⟩ := newDefaultGameState_ok d rest s' hnew
      exact ⟨by simp [defaultState], by simp [defaultState]⟩
    · obtain ⟨xs, hxs⟩ := getHead_ok s head hh
      have hnd : (s.snake ++ [newHead s head]).Nodup := by
        rw [List.nodup_append]
        refine ⟨hi.2, by simp, ?_⟩
        intro x hx hx'
        rw [List.mem_singleton] at hx'
        subst hx'
        exact hc hx
      have htl : (s.snake ++ [newHead s head]).tail ≠ [] := by
        rw [hxs]
        cases xs <;> simp
      have hne : s.snake ++ [newHead s head] ≠ [] := by simp
      rcases hcase with ⟨_, _, rfl⟩ | ⟨_, p, _, rfl⟩
      · split_ifs
        · exact ⟨htl, hnd.tail⟩
        · exact ⟨hne, hnd⟩
      · split_ifs
        · exact ⟨htl, hnd.tail⟩
        · exact ⟨hne, hnd⟩


theorem reachable_afterRight : Reachable afterRight :=
  Reachable.tick (createKeyDownFunc (defaultState (newPosition 11 10)) "ArrowRight") afterRight
    [0, 0] []
    (Reachable.key _ "ArrowRight" (Reachable.init [11, 10] [] (defaultState (newPosition 11 10)) rfl))
    rfl

theorem reachable_afterDown : Reachable afterDown :=
  Reachable.tick (createKeyDownFunc afterRight "ArrowDown") afterDown [] []
    (Reachable.key _ "ArrowDown" reachable_afterRight) rfl

theorem reachable_afterLeft : Reachable afterLeft :=
  Reachable.tick (createKeyDownFunc afterDown "ArrowLeft") afterLeft [] []
    (Reachable.key _ "ArrowLeft" reachable_afterDown) rfl

theorem reachable_squareState : Reachable squareState := by
  have h := Reachable.key afterLeft "ArrowUp" reachable_afterLeft
  have e : createKeyDownFunc afterLeft "ArrowUp" = squareState := by decide
  rw [e] at h
  exact h

/-! ## Properties of the game -/

/-- C1: in every state reachable from `newDefaultGameState` by key presses and
ticks, whatever the random source returns, the apple is set and is not equal to
any segment of the snake. -/
theorem apple_never_on_snake (s : GameState) (h : Reachable s) :
    ∃ a, s.apple = some a ∧ a ∉ s.snake := by
  induction h with
  | init draws rest s hs =>
    obtain ⟨a, rfl, _, hne, _⟩ := newDefaultGameState_ok draws rest s hs
    exact ⟨a, rfl, by simpa [defaultState] using hne⟩
  | key s name _ ih =>
    rw [createKeyDownFunc_apple, createKeyDownFunc_snake]
    exact ih
  | tick s s' draws rest _ hstep ih =>
    exact appleFree_makeStep s s' draws rest ih hstep

/-- C1 at the state after the first apple was eaten: the new apple (0,0) is off
the two-segment snake. -/
theorem apple_never_on_snake_witness :
    Reachable afterRight ∧ ∃ a, afterRight.apple = some a ∧ a ∉ afterRight.snake :=
  ⟨reachable_afterRight, apple_never_on_snake afterRight reachable_afterRight⟩

theorem wrap16_small (n : Int) (h1 : -32768 ≤ n) (h2 : n ≤ 32767) : wrap16 n = n := by
  unfold wrap16
  omega

/-- A tick returns when the snake is non-empty, the apple is set and the random
source offers a position off the extended snake and off the start cell. -/
theorem makeStep_returns (s : GameState) (d : List Nat) (head a : Position)
    (hh : getHead s = .ok head) (ha : s.apple = some a)
    (hd : ∃ p ∈ candidates d, p ∉ s.snake ++ [newHead s head] ∧ p ≠ newPosition 10 10) :
    ∃ s' rest, makeStep s d = .ok (s', rest) := by
  cases hr : s.running with
  | false => exact ⟨s, d, makeStep_stopped s d hr⟩
  | true =>
    obtain ⟨p, hp, hps, hp10⟩ := hd
    by_cases hc : newHead s head ∈ s.snake
    · rw [makeStep_collision s d head hr hh hc]
      exact newDefaultGameState_returns d ⟨p, hp, hp10⟩
    · by_cases hne : newHead s head = a
      · subst hne
        obtain ⟨q, rest, hq⟩ := generateApplePosition_returns (extended s head) d
          ⟨p, hp, by rw [extended_snake]; exact hps⟩
        exact ⟨_, _, makeStep_hit s d rest head q hr hh hc ha hq⟩
      · exact ⟨_, _, makeStep_miss s d head a hr hh hc ha hne⟩

/-- A tick fails only by a panic the state allows (empty snake, nil apple) or by
exhausting the random outcomes. -/
theorem makeStep_error (s : GameState) (d : List Nat) (head a : Position) (e : Fault)
    (hh : getHead s = .ok head) (ha : s.apple = some a)
    (h : makeStep s d = .error e) : e = .noAcceptedDraw := by
  cases hr : s.running with
  | false => rw [makeStep_stopped s d hr] at h; cases h
  | true =>
    by_cases hc : newHead s head ∈ s.snake
    · rw [makeStep_collision s d head hr hh hc] at h
      exact newDefaultGameState_error d e h
    · by_cases hne : newHead s head = a
      · subst hne
        cases hg : generateApplePosition (extended s head) d with
        | error e' =>
          rw [makeStep_hit_error s d head e' hr hh hc ha hg] at h
          cases h
          exact (generateApplePosition_error _ d e hg).1
        | ok pr =>
          obtain ⟨q, rest⟩ := pr
          rw [makeStep_hit s d rest head q hr hh hc ha hg] at h
          cases h
      · rw [makeStep_miss s d head a hr hh hc ha hne] at h
        cases h

/-- C2: a running state with a non-empty snake whose wrapped new head is already
a segment of the snake is replaced by the freshly built default state. -/
theorem collision_resets_to_default (s : GameState) (head : Position) (d : List Nat)
    (hr : s.running = true) (hh : getHead s = .ok head) (hc : newHead s head ∈ s.snake) :
    makeStep s d = newDefaultGameState d ∧
    (∀ s' rest, makeStep s d = .ok (s', rest) →
      s'.snake = [newPosition 10 10] ∧ s'.points = 2 ∧ s'.running = false ∧
      s'.move = newPosition 0 0 ∧ s'.nextMove = newPosition 0 0 ∧
      ∃ a, s'.apple = some a ∧ inGrid a ∧ a ≠ newPosition 10 10) ∧
    ((∃ p ∈ candidates d, p ≠ newPosition 10 10) → ∃ s' rest, makeStep s d = .ok (s', rest)) ∧
    (∀ e, makeStep s d = .error e → e = .noAcceptedDraw) := by
  have hm := makeStep_collision s d head hr hh hc
  refine ⟨hm, ?_, ?_, ?_⟩
  · intro s' rest h
    rw [hm] at h
    obtain ⟨a, rfl, hg, hne, _⟩ := newDefaultGameState_ok d rest s' h
    exact ⟨rfl, rfl, rfl, rfl, rfl, a, rfl, hg, hne⟩
  · intro hd
    rw [hm]
    exact newDefaultGameState_returns d hd
  · intro e h
    rw [hm] at h
    exact newDefaultGameState_error d e h

/-- C2 at the square: the head at (10,11) moves up onto the tail (10,10). -/
theorem collision_resets_to_default_witness :
    makeStep squareState [0, 0] = newDefaultGameState [0, 0] ∧
    (∀ s' rest, makeStep squareState [0, 0] = .ok (s', rest) →
      s'.snake = [newPosition 10 10] ∧ s'.points = 2 ∧ s'.running = false ∧
      s'.move = newPosition 0 0 ∧ s'.nextMove = newPosition 0 0 ∧
      ∃ a, s'.apple = some a ∧ inGrid a ∧ a ≠ newPosition 10 10) ∧
    ((∃ p ∈ candidates [0, 0], p ≠ newPosition 10 10) →
      ∃ s' rest, makeStep squareState [0, 0] = .ok (s', rest)) ∧
    (∀ e, makeStep squareState [0, 0] = .error e → e = .noAcceptedDraw) :=
  collision_resets_to_default squareState (newPosition 10 11) [0, 0] rfl rfl (by decide)

theorem commitMove_reverse (s : GameState) (hu : isUnit s.move) (hn : s.nextMove = negate s.move) :
    (commitMove s).move = s.move := by
  unfold commitMove
  have hx : wrap16 (-s.move.x) = -s.move.x := by
    rcases hu with h | h | h | h <;> rw [h] <;> rfl
  have hy : wrap16 (-s.move.y) = -s.move.y := by
    rcases hu with h | h | h | h <;> rw [h] <;> rfl
  rw [hx, hy, hn]
  simp [negate, newPosition]

theorem commitMove_turn (s : GameState) (hu : isUnit s.move) (hn : s.nextMove ≠ negate s.move) :
    (commitMove s).move = s.nextMove := by
  unfold commitMove
  have hx : wrap16 (-s.move.x) = -s.move.x := by
    rcases hu with h | h | h | h <;> rw [h] <;> rfl
  have hy : wrap16 (-s.move.y) = -s.move.y := by
    rcases hu with h | h | h | h <;> rw [h] <;> rfl
  rw [hx, hy]
  have : s.nextMove.x ≠ -s.move.x ∨ s.nextMove.y ≠ -s.move.y := by
    by_contra hcon
    push_neg at hcon
    exact hn ((Position.eq_iff _ _).2 hcon)
  rw [if_pos this]

/-- A tick that returns without a collision leaves the committed direction in `move`. -/
theorem makeStep_move (s s' : GameState) (d rest : List Nat) (head : Position)
    (hr : s.running = true) (hh : getHead s = .ok head) (hc : newHead s head ∉ s.snake)
    (h : makeStep s d = .ok (s', rest)) : s'.move = (commitMove s).move := by
  rcases makeStep_ok_cases s s' d rest h with ⟨hf, _, _⟩ | ⟨head', _, hh', hcase⟩
  · rw [hr] at hf; cases hf
  · rw [hh] at hh'
    cases hh'
    rcases hcase with ⟨hc', _⟩ | ⟨_, a, _, hcase⟩
    · exact absurd hc' hc
    · rcases hcase with ⟨_, _, rfl⟩ | ⟨_, p, _, rfl⟩ <;> split_ifs <;> rfl

/-- C3, amended: in a running state whose move is a unit direction, a tick that
does not collide leaves `move` unchanged when `nextMove` is its exact negation
and sets `move` to `nextMove` otherwise (so for every perpendicular or equal
unit direction); a tick that collides resets `move` to (0,0). -/
theorem anti_reversal_unless_collision (s : GameState) (head : Position) (d : List Nat)
    (hr : s.running = true) (hh : getHead s = .ok head) (hu : isUnit s.move) :
    (∀ s' rest, makeStep s d = .ok (s', rest) → newHead s head ∉ s.snake →
      (s.nextMove = negate s.move → s'.move = s.move) ∧
      (s.nextMove ≠ negate s.move → s'.move = s.nextMove)) ∧
    (∀ s' rest, makeStep s d = .ok (s', rest) → newHead s head ∈ s.snake →
      s'.move = newPosition 0 0) ∧
    (∀ a, s.apple = some a →
      (∃ p ∈ candidates d, p ∉ s.snake ++ [newHead s head] ∧ p ≠ newPosition 10 10) →
      ∃ s' rest, makeStep s d = .ok (s', rest)) := by
  refine ⟨?_, ?_, ?_⟩
  · intro s' rest h hc
    have hm := makeStep_move s s' d rest head hr hh hc h
    exact ⟨fun hn => by rw [hm, commitMove_reverse s hu hn],
      fun hn => by rw [hm, commitMove_turn s hu hn]⟩
  · intro s' rest h hc
    rw [makeStep_collision s d head hr hh hc] at h
    obtain ⟨a, rfl, _⟩ := newDefaultGameState_ok d rest s' h
    rfl
  · intro a ha hd
    exact makeStep_returns s d head a hh ha hd

/-- C3, amended, at the state after "ArrowDown" was pressed while moving right:
the tick turns the snake down. -/
theorem anti_reversal_unless_collision_witness :
    (∀ s' rest, makeStep (createKeyDownFunc afterRight "ArrowDown") [] = .ok (s', rest) →
      newHead (createKeyDownFunc afterRight "ArrowDown") (newPosition 11 10)
        ∉ (createKeyDownFunc afterRight "ArrowDown").snake →
      ((createKeyDownFunc afterRight "ArrowDown").nextMove
          = negate (createKeyDownFunc afterRight "ArrowDown").move →
        s'.move = (createKeyDownFunc afterRight "ArrowDown").move) ∧
      ((createKeyDownFunc afterRight "ArrowDown").nextMove
          ≠ negate (createKeyDownFunc afterRight "ArrowDown").move →
        s'.move = (createKeyDownFunc afterRight "ArrowDown").nextMove)) ∧
    makeStep (createKeyDownFunc afterRight "ArrowDown") [] = .ok (afterDown, []) ∧
    afterDown.move = newPosition 0 1 :=
  ⟨(anti_reversal_unless_collision (createKeyDownFunc afterRight "ArrowDown")
      (newPosition 11 10) [] rfl rfl (by decide)).1, rfl, rfl⟩

/-- C3 as stated fails: in the reachable state `squareState` the move is the unit
direction (-1,0) and `nextMove` is the perpendicular (0,-1), yet after the tick
`move` is (0,0), not `nextMove`, because the tick collides and resets. -/
theorem anti_reversal_fails_on_collision :
    Reachable squareState ∧ squareState.running = true ∧
    squareState.move = newPosition (-1) 0 ∧ squareState.nextMove = newPosition 0 (-1) ∧
    makeStep squareState [0, 0] = .ok (defaultState (newPosition 0 0), []) ∧
    (defaultState (newPosition 0 0)).move ≠ squareState.nextMove :=
  ⟨reachable_squareState, rfl, rfl, rfl, rfl, by decide⟩

theorem newHead_right_default (a : Position) :
    newHead (createKeyDownFunc (defaultState a) "ArrowRight") (newPosition 10 10)
      = newPosition 11 10 := rfl

/-- C4, amended: from every state `newDefaultGameState` produces, the key
"ArrowRight" gives running = true and nextMove = (1,0), and one following tick
gives move = (1,0), snake = [(10,10),(11,10)] and points = 1 when the apple is
not at (11,10); when the apple is at (11,10) the head eats it on that tick and
points = 2. -/
theorem start_right_then_tick (d r0 : List Nat) (s0 : GameState)
    (h0 : newDefaultGameState d = .ok (s0, r0)) :
    (s0.snake = [newPosition 10 10] ∧ s0.points = 2 ∧ s0.running = false) ∧
    ((createKeyDownFunc s0 "ArrowRight").running = true ∧
      (createKeyDownFunc s0 "ArrowRight").nextMove = newPosition 1 0) ∧
    (∀ d1 s1 r1, makeStep (createKeyDownFunc s0 "ArrowRight") d1 = .ok (s1, r1) →
      s1.move = newPosition 1 0 ∧ s1.snake = [newPosition 10 10, newPosition 11 10] ∧
      s1.points = if s0.apple = some (newPosition 11 10) then 2 else 1) ∧
    (s0.apple ≠ some (newPosition 11 10) →
      ∀ d1, ∃ s1, makeStep (createKeyDownFunc s0 "ArrowRight") d1 = .ok (s1, d1)) ∧
    (∀ d1, (∃ p ∈ candidates d1, p ≠ newPosition 10 10 ∧ p ≠ newPosition 11 10) →
      ∃ s1 r1, makeStep (createKeyDownFunc s0 "ArrowRight") d1 = .ok (s1, r1)) := by
  obtain ⟨a, rfl, _, hne, _⟩ := newDefaultGameState_ok d r0 s0 h0
  have hrun : (createKeyDownFunc (defaultState a) "ArrowRight").running = true := rfl
  have hhead : getHead (createKeyDownFunc (defaultState a) "ArrowRight")
      = .ok (newPosition 10 10) := rfl
  have hnc : newHead (createKeyDownFunc (defaultState a) "ArrowRight") (newPosition 10 10)
      ∉ (createKeyDownFunc (defaultState a) "ArrowRight").snake := by
    show newPosition 11 10 ∉ [newPosition 10 10]
    decide
  have hap : (createKeyDownFunc (defaultState a) "ArrowRight").apple = some a := rfl
  refine ⟨⟨rfl, rfl, rfl⟩, ⟨rfl, rfl⟩, ?_, ?_, ?_⟩
  · intro d1 s1 r1 h1
    by_cases ha : a = newPosition 11 10
    · subst ha
      cases hg : generateApplePosition
          (extended (createKeyDownFunc (defaultState (newPosition 11 10)) "ArrowRight")
            (newPosition 10 10)) d1 with
      | error e =>
        rw [makeStep_hit_error _ d1 (newPosition 10 10) e hrun hhead hnc hap hg] at h1
        cases h1
      | ok pr =>
        obtain ⟨p, r⟩ := pr
        rw [makeStep_hit _ d1 r (newPosition 10 10) p hrun hhead hnc hap hg] at h1
        simp only [Except.ok.injEq, Prod.mk.injEq] at h1
        obtain ⟨rfl, _⟩ := h1
        exact ⟨rfl, rfl, rfl⟩
    · have hne' : newHead (createKeyDownFunc (defaultState a) "ArrowRight") (newPosition 10 10)
          ≠ a := by
        rw [newHead_right_default]
        exact fun h => ha h.symm
      rw [makeStep_miss _ d1 (newPosition 10 10) a hrun hhead hnc hap hne'] at h1
      simp only [Except.ok.injEq, Prod.mk.injEq] at h1
      obtain ⟨rfl, _⟩ := h1
      have : ¬ (some a = some (newPosition 11 10)) := by simpa using ha
      refine ⟨rfl, rfl, ?_⟩
      show _ = if some a = some (newPosition 11 10) then 2 else 1
      rw [if_neg this]
      rfl
  · intro ha d1
    have hne' : newHead (createKeyDownFunc (defaultState a) "ArrowRight") (newPosition 10 10)
        ≠ a := by
      rw [newHead_right_default]
      exact fun h => ha (by rw [← h]; rfl)
    exact ⟨_, makeStep_miss _ d1 (newPosition 10 10) a hrun hhead hnc hap hne'⟩
  · intro d1 hd
    obtain ⟨p, hp, hp10, hp11⟩ := hd
    refine makeStep_returns _ d1 (newPosition 10 10) a hhead hap ⟨p, hp, ?_, hp10⟩
    show p ∉ [newPosition 10 10] ++ [newPosition 11 10]
    simp [hp10, hp11]

/-- C4, amended, at the start with the apple at (3,4): the tick leaves points = 1. -/
theorem start_right_then_tick_witness :
    newDefaultGameState [3, 4] = .ok (defaultState (newPosition 3 4), []) ∧
    ∀ d1 s1 r1,
      makeStep (createKeyDownFunc (defaultState (newPosition 3 4)) "ArrowRight") d1 = .ok (s1, r1) →
      s1.move = newPosition 1 0 ∧ s1.snake = [newPosition 10 10, newPosition 11 10] ∧
      s1.points = if (defaultState (newPosition 3 4)).apple = some (newPosition 11 10) then 2 else 1 :=
  ⟨rfl, (start_right_then_tick [3, 4] [] (defaultState (newPosition 3 4)) rfl).2.2.1⟩

/-- C4 as stated fails: when the rejection sampling places the apple at (11,10),
the tick after "ArrowRight" eats it and leaves points = 2, not 1. -/
theorem start_right_onto_apple_keeps_two_points :
    newDefaultGameState [11, 10] = .ok (defaultState (newPosition 11 10), []) ∧
    makeStep (createKeyDownFunc (defaultState (newPosition 11 10)) "ArrowRight") [0, 0]
      = .ok (afterRight, []) ∧
    afterRight.points = 2 ∧ afterRight.points ≠ 1 :=
  ⟨rfl, rfl, rfl, by decide⟩

/-- Eating away from the two corners: in a running state with 0 <= points < 32767
whose tick does not collide and whose new head is on the apple, every state the
tick returns has the old snake with the new head appended (one segment more), a
new apple on a grid cell off the extended snake, and points unchanged, the
shrink decision being taken on points + 1; the tick returns as soon as a cell
off the extended snake is drawn. -/
theorem eating_keeps_tail (s : GameState) (head : Position) (d : List Nat)
    (hr : s.running = true) (hh : getHead s = .ok head)
    (hp0 : 0 ≤ s.points) (hp1 : s.points < 32767)
    (hc : newHead s head ∉ s.snake) (ha : s.apple = some (newHead s head)) :
    (∀ s' rest, makeStep s d = .ok (s', rest) →
      s'.snake = s.snake ++ [newHead s head] ∧
      s'.snake.length = s.snake.length + 1 ∧
      (∃ p, s'.apple = some p ∧ inGrid p ∧ p ∉ s.snake ++ [newHead s head]) ∧
      growOrShrink { extended s head with points := s.points + 1, apple := s'.apple } = .ok s' ∧
      s'.points = s.points) ∧
    ((∃ p ∈ candidates d, p ∉ s.snake ++ [newHead s head]) →
      ∃ s' rest, makeStep s d = .ok (s', rest)) := by
  have hw : wrap16 (s.points + 1) = s.points + 1 := wrap16_small _ (by omega) (by omega)
  have hw' : wrap16 (s.points + 1 - 1) = s.points := by
    rw [wrap16_small _ (by omega) (by omega)]
    omega
  constructor
  · intro s' rest h
    cases hg : generateApplePosition (extended s head) d with
    | error e =>
      rw [makeStep_hit_error s d head e hr hh hc ha hg] at h
      cases h
    | ok pr =>
      obtain ⟨p, r⟩ := pr
      rw [makeStep_hit s d r head p hr hh hc ha hg, hw, if_neg (by omega), hw'] at h
      simp only [Except.ok.injEq, Prod.mk.injEq] at h
      obtain ⟨rfl, _⟩ := h
      have hp := generateApplePosition_ok _ d r p hg
      refine ⟨rfl, by simp [extended_snake], ⟨p, rfl, ⟨hp.1, hp.2.1⟩, hp.2.2.1⟩, ?_, rfl⟩
      rw [growOrShrink_grow _ (by simp only; omega)]
      simp only [hw']
  · intro hd
    obtain ⟨p, hp, hps⟩ := hd
    obtain ⟨q, rest, hq⟩ := generateApplePosition_returns (extended s head) d
      ⟨p, hp, by rw [extended_snake]; exact hps⟩
    exact ⟨_, _, makeStep_hit s d rest head q hr hh hc ha hq⟩

/-- The wrap scenario of the specification with points = 0: the head wraps from
(19,10) to (0,10), eats, and the snake has three segments. -/
theorem eating_keeps_tail_witness :
    (∀ s' rest, makeStep edgeState [5, 5] = .ok (s', rest) →
      s'.snake = edgeState.snake ++ [newHead edgeState (newPosition 19 10)] ∧
      s'.snake.length = edgeState.snake.length + 1 ∧
      (∃ p, s'.apple = some p ∧ inGrid p ∧
        p ∉ edgeState.snake ++ [newHead edgeState (newPosition 19 10)]) ∧
      growOrShrink { extended edgeState (newPosition 19 10) with
        points := edgeState.points + 1, apple := s'.apple } = .ok s' ∧
      s'.points = edgeState.points) ∧
    makeStep edgeState [5, 5] = .ok
      ({ edgeState with
          snake := [newPosition 18 10, newPosition 19 10, newPosition 0 10],
          apple := some (newPosition 5 5) }, []) :=
  ⟨(eating_keeps_tail edgeState (newPosition 19 10) [5, 5] rfl rfl (by decide) (by decide)
      (by decide) rfl).1, rfl⟩

/-- At points = 32767, a value no reachable state holds, `points++` overflows to
-32768, the shrink branch runs and the tail (18,10) is removed, so the snake
keeps two segments. -/
theorem eating_at_max_points_drops_tail :
    edgeStateMaxPoints.running = true ∧ 0 ≤ edgeStateMaxPoints.points ∧
    newHead edgeStateMaxPoints (newPosition 19 10) ∉ edgeStateMaxPoints.snake ∧
    edgeStateMaxPoints.apple = some (newHead edgeStateMaxPoints (newPosition 19 10)) ∧
    makeStep edgeStateMaxPoints [5, 5] = .ok
      ({ edgeStateMaxPoints with
          snake := [newPosition 19 10, newPosition 0 10],
          points := -32768,
          apple := some (newPosition 5 5) }, []) :=
  ⟨rfl, by decide, by decide, rfl, rfl⟩

theorem createKeyDownFunc_running (s : GameState) (name : String) (h : s.running = true) :
    (createKeyDownFunc s name).running = true := by
  unfold createKeyDownFunc
  simp only
  split_ifs <;> first | rfl | exact h

theorem pressKeys_frame (names : List String) (s : GameState) :
    (pressKeys s names).snake = s.snake ∧ (pressKeys s names).apple = s.apple ∧
    (pressKeys s names).points = s.points ∧ (pressKeys s names).move = s.move ∧
    (s.running = true → (pressKeys s names).running = true) := by
  induction names generalizing s with
  | nil => exact ⟨rfl, rfl, rfl, rfl, fun h => h⟩
  | cons n ns ih =>
    have h := ih (createKeyDownFunc s n)
    simp only [pressKeys, List.foldl_cons] at h ⊢
    rw [createKeyDownFunc_snake, createKeyDownFunc_apple, createKeyDownFunc_points,
      createKeyDownFunc_move] at h
    exact ⟨h.1, h.2.1, h.2.2.1, h.2.2.2.1,
      fun hr => h.2.2.2.2 (createKeyDownFunc_running s n hr)⟩

/-- A tick that neither collides nor eats: the effect on snake, points, apple and
running. -/
theorem makeStep_plain (s s' : GameState) (d rest : List Nat) (head : Position)
    (hr : s.running = true) (hh : getHead s = .ok head) (hc : newHead s head ∉ s.snake)
    (hne : s.apple ≠ some (newHead s head)) (h : makeStep s d = .ok (s', rest)) :
    s'.running = true ∧ s'.apple = s.apple ∧
    (0 < s.points → s'.snake = s.snake ++ [newHead s head] ∧ s'.points = wrap16 (s.points - 1)) ∧
    (s.points ≤ 0 → s'.snake = (s.snake ++ [newHead s head]).tail ∧ s'.points = s.points) := by
  cases ha : s.apple with
  | none =>
    rw [makeStep_nil_apple s d head hr hh hc ha] at h
    cases h
  | some a =>
    have hna : newHead s head ≠ a := by
      intro e
      exact hne (by rw [ha, e])
    rw [makeStep_miss s d head a hr hh hc ha hna] at h
    simp only [Except.ok.injEq, Prod.mk.injEq] at h
    obtain ⟨rfl, _⟩ := h
    by_cases hp : s.points ≤ 0
    · rw [if_pos hp]
      exact ⟨by rw [← hr]; exact extended_running s head, by rw [← ha]; exact extended_apple s head,
        fun h0 => absurd hp (by omega), fun _ => ⟨rfl, extended_points s head⟩⟩
    · rw [if_neg hp]
      exact ⟨by rw [← hr]; exact extended_running s head, by rw [← ha]; exact extended_apple s head,
        fun _ => ⟨rfl, rfl⟩, fun h0 => absurd h0 hp⟩

/-- A tick that does not collide and eats, with room in `points`: the effect. -/
theorem makeStep_eats (s s' : GameState) (d rest : List Nat) (head : Position)
    (hr : s.running = true) (hh : getHead s = .ok head) (hc : newHead s head ∉ s.snake)
    (ha : s.apple = some (newHead s head)) (hp0 : 0 ≤ s.points) (hp1 : s.points < 32767)
    (h : makeStep s d = .ok (s', rest)) :
    s'.running = true ∧ s'.snake = s.snake ++ [newHead s head] ∧ s'.points = s.points ∧
    (∃ p, s'.apple = some p) ∧
    ∃ t, eatApple (extended s head) d = .ok (t, rest) ∧ t.points = s.points + 1 := by
  have hw : wrap16 (s.points + 1) = s.points + 1 := wrap16_small _ (by omega) (by omega)
  have hw' : wrap16 (s.points + 1 - 1) = s.points := by
    rw [wrap16_small _ (by omega) (by omega)]
    omega
  cases hg : generateApplePosition (extended s head) d with
  | error e =>
    rw [makeStep_hit_error s d head e hr hh hc ha hg] at h
    cases h
  | ok pr =>
    obtain ⟨p, r⟩ := pr
    rw [makeStep_hit s d r head p hr hh hc ha hg, hw, if_neg (by omega), hw'] at h
    simp only [Except.ok.injEq, Prod.mk.injEq] at h
    obtain ⟨rfl, rfl⟩ := h
    refine ⟨by rw [← hr]; exact extended_running s head, rfl, rfl, ⟨p, rfl⟩, ?_⟩
    rw [eatApple_hit (extended s head) d s.snake (newHead s head) rfl
      (by rw [extended_apple, ha]), hg]
    exact ⟨_, rfl, by simp only [extended_points, hw]⟩

/-- C6: from a running state with points = 2 whose tick eats the apple (points
is 3 inside that tick), then three more ticks that neither collide nor eat, with
any key presses in between: the snake grows by exactly one segment on each of
the three ticks counted from the eating tick, points goes 2, 1, 0, and the
first tail removal is on the fourth tick, the one after points reached 0. -/
theorem growth_budget (s0 s1 s2 s3 s4 : GameState) (h0 h1 h2 h3 : Position)
    (d0 d1 d2 d3 r0 r1 r2 r3 : List Nat) (k1 k2 k3 : List String)
    (hr : s0.running = true) (hp : s0.points = 2)
    (hh0 : getHead s0 = .ok h0) (hc0 : newHead s0 h0 ∉ s0.snake)
    (he0 : s0.apple = some (newHead s0 h0))
    (t0 : makeStep s0 d0 = .ok (s1, r0))
    (hh1 : getHead (pressKeys s1 k1) = .ok h1)
    (hc1 : newHead (pressKeys s1 k1) h1 ∉ (pressKeys s1 k1).snake)
    (he1 : (pressKeys s1 k1).apple ≠ some (newHead (pressKeys s1 k1) h1))
    (t1 : makeStep (pressKeys s1 k1) d1 = .ok (s2, r1))
    (hh2 : getHead (pressKeys s2 k2) = .ok h2)
    (hc2 : newHead (pressKeys s2 k2) h2 ∉ (pressKeys s2 k2).snake)
    (he2 : (pressKeys s2 k2).apple ≠ some (newHead (pressKeys s2 k2) h2))
    (t2 : makeStep (pressKeys s2 k2) d2 = .ok (s3, r2))
    (hh3 : getHead (pressKeys s3 k3) = .ok h3)
    (hc3 : newHead (pressKeys s3 k3) h3 ∉ (pressKeys s3 k3).snake)
    (he3 : (pressKeys s3 k3).apple ≠ some (newHead (pressKeys s3 k3) h3))
    (t3 : makeStep (pressKeys s3 k3) d3 = .ok (s4, r3)) :
    (∃ t, eatApple (extended s0 h0) d0 = .ok (t, r0) ∧ t.points = 3) ∧
    (s1.snake = s0.snake ++ [newHead s0 h0] ∧
      s2.snake = s1.snake ++ [newHead (pressKeys s1 k1) h1] ∧
      s3.snake = s2.snake ++ [newHead (pressKeys s2 k2) h2]) ∧
    (s1.snake.length = s0.snake.length + 1 ∧ s2.snake.length = s1.snake.length + 1 ∧
      s3.snake.length = s2.snake.length + 1) ∧
    (s1.points = 2 ∧ s2.points = 1 ∧ s3.points = 0) ∧
    (s4.snake = (s3.snake ++ [newHead (pressKeys s3 k3) h3]).tail ∧
      s4.snake.length = s3.snake.length ∧ s4.points = 0) ∧
    ((∀ d, ∃ s, makeStep (pressKeys s1 k1) d = .ok (s, d)) ∧
      (∀ d, ∃ s, makeStep (pressKeys s2 k2) d = .ok (s, d)) ∧
      (∀ d, ∃ s, makeStep (pressKeys s3 k3) d = .ok (s, d))) := by
  obtain ⟨run1, sn1, pt1, ⟨ap, hap1⟩, t, ht, htp⟩ :=
    makeStep_eats s0 s1 d0 r0 h0 hr hh0 hc0 he0 (by omega) (by omega) t0
  rw [hp] at pt1 htp
  have f1 := pressKeys_frame k1 s1
  have p1 := makeStep_plain (pressKeys s1 k1) s2 d1 r1 h1 (f1.2.2.2.2 run1) hh1 hc1 he1 t1
  rw [f1.2.2.1, f1.1, pt1] at p1
  obtain ⟨run2, ap2, g2, _⟩ := p1
  obtain ⟨sn2, pt2⟩ := g2 (by decide)
  have e21 : wrap16 (2 - 1) = 1 := by rfl
  rw [e21] at pt2
  have f2 := pressKeys_frame k2 s2
  have p2 := makeStep_plain (pressKeys s2 k2) s3 d2 r2 h2 (f2.2.2.2.2 run2) hh2 hc2 he2 t2
  rw [f2.2.2.1, f2.1, pt2] at p2
  obtain ⟨run3, ap3, g3, _⟩ := p2
  obtain ⟨sn3, pt3⟩ := g3 (by decide)
  have e10 : wrap16 (1 - 1) = 0 := by rfl
  rw [e10] at pt3
  have f3 := pressKeys_frame k3 s3
  have p3 := makeStep_plain (pressKeys s3 k3) s4 d3 r3 h3 (f3.2.2.2.2 run3) hh3 hc3 he3 t3
  rw [f3.2.2.1, f3.1, pt3] at p3
  obtain ⟨_, _, _, g4⟩ := p3
  obtain ⟨sn4, pt4⟩ := g4 (by decide)
  have a1 : (pressKeys s1 k1).apple = some ap := by rw [f1.2.1, hap1]
  have a2 : (pressKeys s2 k2).apple = some ap := by rw [f2.2.1, ap2, a1]
  have a3 : (pressKeys s3 k3).apple = some ap := by rw [f3.2.1, ap3, a2]
  refine ⟨⟨t, ht, by rw [htp]; rfl⟩, ⟨sn1, sn2, sn3⟩, ⟨?_, ?_, ?_⟩, ⟨pt1, pt2, pt3⟩,
    ⟨sn4, ?_, pt4⟩, ?_, ?_, ?_⟩
  · rw [sn1]; simp
  · rw [sn2]; simp
  · rw [sn3]; simp
  · rw [sn4]; simp
  · exact fun d => ⟨_, makeStep_miss _ d h1 ap (f1.2.2.2.2 run1) hh1 hc1 a1
      (fun e => he1 (by rw [a1, e]))⟩
  · exact fun d => ⟨_, makeStep_miss _ d h2 ap (f2.2.2.2.2 run2) hh2 hc2 a2
      (fun e => he2 (by rw [a2, e]))⟩
  · exact fun d => ⟨_, makeStep_miss _ d h3 ap (f3.2.2.2.2 run3) hh3 hc3 a3
      (fun e => he3 (by rw [a3, e]))⟩

/-- C6 on the game that starts with the apple at (11,10): right (eating), down,
left, left; the lengths are 1, 2, 3, 4, 4. -/
theorem growth_budget_witness :
    makeStep (createKeyDownFunc (defaultState (newPosition 11 10)) "ArrowRight") [0, 0]
      = .ok (afterRight, []) ∧
    makeStep (pressKeys afterRight ["ArrowDown"]) [] = .ok (afterDown, []) ∧
    makeStep (pressKeys afterDown ["ArrowLeft"]) [] = .ok (afterLeft, []) ∧
    makeStep (pressKeys afterLeft []) [] = .ok (afterShrink, []) ∧
    (afterRight.snake.length = 2 ∧ afterDown.snake.length = 3 ∧ afterLeft.snake.length = 4) ∧
    (afterRight.points = 2 ∧ afterDown.points = 1 ∧ afterLeft.points = 0) ∧
    (afterShrink.snake = (afterLeft.snake ++ [newHead (pressKeys afterLeft []) (newPosition 10 11)]).tail ∧
      afterShrink.snake.length = afterLeft.snake.length ∧ afterShrink.points = 0) :=
  have h := growth_budget
    (createKeyDownFunc (defaultState (newPosition 11 10)) "ArrowRight")
    afterRight afterDown afterLeft afterShrink
    (newPosition 10 10) (newPosition 11 10) (newPosition 11 11) (newPosition 10 11)
    [0, 0] [] [] [] [] [] [] [] ["ArrowDown"] ["ArrowLeft"] []
    rfl rfl rfl (by decide) rfl rfl
    rfl (by decide) (by decide) rfl
    rfl (by decide) (by decide) rfl
    rfl (by decide) (by decide) rfl
  ⟨rfl, rfl, rfl, rfl, ⟨rfl, rfl, rfl⟩, h.2.2.2.1, h.2.2.2.2.1⟩

/-- C7: `processBound` is the identity on [0,19], sends 20 to 0 and -1 to 19;
so moving a grid position by (0,0) changes nothing, and `movePosition` wraps
each axis on its own: x = 19 moved by +1 is 0, x = 0 moved by -1 is 19, likewise
for y, the other coordinate staying as it was. -/
theorem processBound_wraps (n : Int) (p : Position) (hn : 0 ≤ n ∧ n ≤ 19) (hp : inGrid p) :
    processBound n = n ∧ processBound 20 = 0 ∧ processBound (-1) = 19 ∧
    movePosition p (newPosition 0 0) = p ∧
    movePosition (newPosition 19 p.y) (newPosition 1 0) = newPosition 0 p.y ∧
    movePosition (newPosition 0 p.y) (newPosition (-1) 0) = newPosition 19 p.y ∧
    movePosition (newPosition p.x 19) (newPosition 0 1) = newPosition p.x 0 ∧
    movePosition (newPosition p.x 0) (newPosition 0 (-1)) = newPosition p.x 19 ∧
    (∀ q q' m m', q.x = q'.x → m.x = m'.x → (movePosition q m).x = (movePosition q' m').x) ∧
    (∀ q q' m m', q.y = q'.y → m.y = m'.y → (movePosition q m).y = (movePosition q' m').y) := by
  obtain ⟨⟨hx0, hx1⟩, hy0, hy1⟩ := hp
  have hb : ∀ k : Int, 0 ≤ k → k ≤ 19 → processBound (wrap16 (k + 0)) = k := by
    intro k h0 h1
    rw [wrap16_small _ (by omega) (by omega)]
    unfold processBound
    rw [if_neg (by omega), if_neg (by omega)]
    omega
  have e1 : processBound (wrap16 (19 + 1)) = 0 := by rfl
  have e2 : processBound (wrap16 (0 + -1)) = 19 := by rfl
  refine ⟨?_, by rfl, by rfl, ?_, ?_, ?_, ?_, ?_, ?_, ?_⟩
  · unfold processBound
    rw [if_neg (by omega), if_neg (by omega)]
  · cases p
    simp only [movePosition, newPosition] at *
    rw [hb _ hx0 hx1, hb _ hy0 hy1]
  · simp only [movePosition, newPosition, e1, hb _ hy0 hy1]
  · simp only [movePosition, newPosition, e2, hb _ hy0 hy1]
  · simp only [movePosition, newPosition, e1, hb _ hx0 hx1]
  · simp only [movePosition, newPosition, e2, hb _ hx0 hx1]
  · intro q q' m m' h1 h2
    simp only [movePosition, h1, h2]
  · intro q q' m m' h1 h2
    simp only [movePosition, h1, h2]

/-- C7 at n = 7 and p = (3,4). -/
theorem processBound_wraps_witness :
    processBound 7 = 7 ∧ processBound 20 = 0 ∧ processBound (-1) = 19 ∧
    movePosition (newPosition 3 4) (newPosition 0 0) = newPosition 3 4 ∧
    movePosition (newPosition 19 4) (newPosition 1 0) = newPosition 0 4 ∧
    movePosition (newPosition 0 4) (newPosition (-1) 0) = newPosition 19 4 ∧
    movePosition (newPosition 3 19) (newPosition 0 1) = newPosition 3 0 ∧
    movePosition (newPosition 3 0) (newPosition 0 (-1)) = newPosition 3 19 :=
  have h := processBound_wraps 7 (newPosition 3 4) (by decide) (by decide)
  ⟨h.1, h.2.1, h.2.2.1, h.2.2.2.1, h.2.2.2.2.1, h.2.2.2.2.2.1, h.2.2.2.2.2.2.1,
    h.2.2.2.2.2.2.2.1⟩

/-- C8: the key handler of the source equals the reference: `nextMove` becomes
(-1,0), (1,0), (0,-1), (0,1) for "ArrowLeft", "ArrowRight", "ArrowUp",
"ArrowDown" and is unchanged for every other name; `running` becomes true when
the name starts with "Arrow" and is otherwise unchanged; snake, move, points and
apple are unchanged. -/
theorem createKeyDownFunc_eq_reference (s : GameState) (name : String) :
    createKeyDownFunc s name = keyHandlerReference s name := by
  have hL : stringsHasPrefix "ArrowLeft" "Arrow" = true := by decide
  have hR : stringsHasPrefix "ArrowRight" "Arrow" = true := by decide
  have hU : stringsHasPrefix "ArrowUp" "Arrow" = true := by decide
  have hD : stringsHasPrefix "ArrowDown" "Arrow" = true := by decide
  unfold createKeyDownFunc keyHandlerReference ARROW_LEFT ARROW_RIGHT ARROW_UP ARROW_DOWN
    ARROW_PREFIX
  by_cases h1 : name = "ArrowLeft"
  · subst h1
    simp [hL]
  by_cases h2 : name = "ArrowRight"
  · subst h2
    simp [hR]
  by_cases h3 : name = "ArrowUp"
  · subst h3
    simp [hU]
  by_cases h4 : name = "ArrowDown"
  · subst h4
    simp [hD]
  simp only [h1, h2, h3, h4, if_false]
  cases hp : stringsHasPrefix name "Arrow" <;> cases s <;> simp

/-- C9: when `running` is false a tick returns the state unchanged in every
field and consumes no random outcome, and so does any number of ticks. -/
theorem makeStep_idle (s : GameState) (d : List Nat) (n : Nat) (h : s.running = false) :
    makeStep s d = .ok (s, d) ∧ makeSteps n s d = .ok (s, d) := by
  have h1 := makeStep_stopped s d h
  refine ⟨h1, ?_⟩
  induction n with
  | zero => rfl
  | succ n ih =>
    rw [makeSteps, h1]
    exact ih

/-- C9 at the default state with the apple at (3,4), for five ticks. -/
theorem makeStep_idle_witness :
    makeStep (defaultState (newPosition 3 4)) [1, 2] = .ok (defaultState (newPosition 3 4), [1, 2]) ∧
    makeSteps 5 (defaultState (newPosition 3 4)) [1, 2]
      = .ok (defaultState (newPosition 3 4), [1, 2]) :=
  makeStep_idle (defaultState (newPosition 3 4)) [1, 2] 5 rfl

/-- C10: in every reachable state the snake is non-empty and has no two equal
segments; the state built at start-up has the property, and the key handler and
every tick that returns preserve it. -/
theorem snake_nonempty_nodup :
    (∀ s, Reachable s → s.snake ≠ [] ∧ s.snake.Nodup) ∧
    (∀ d s rest, newDefaultGameState d = .ok (s, rest) → s.snake ≠ [] ∧ s.snake.Nodup) ∧
    (∀ s name, (s.snake ≠ [] ∧ s.snake.Nodup) →
      (createKeyDownFunc s name).snake ≠ [] ∧ (createKeyDownFunc s name).snake.Nodup) ∧
    (∀ s d s' rest, (s.snake ≠ [] ∧ s.snake.Nodup) → makeStep s d = .ok (s', rest) →
      s'.snake ≠ [] ∧ s'.snake.Nodup) := by
  have hinit : ∀ d s rest, newDefaultGameState d = .ok (s, rest) →
      s.snake ≠ [] ∧ s.snake.Nodup := by
    intro d s rest h
    obtain ⟨a, rfl, _⟩ := newDefaultGameState_ok d rest s h
    exact ⟨by simp [defaultState], by simp [defaultState]⟩
  have hkey : ∀ s name, (s.snake ≠ [] ∧ s.snake.Nodup) →
      (createKeyDownFunc s name).snake ≠ [] ∧ (createKeyDownFunc s name).snake.Nodup := by
    intro s name h
    rw [createKeyDownFunc_snake]
    exact h
  have htick : ∀ s d s' rest, (s.snake ≠ [] ∧ s.snake.Nodup) →
      makeStep s d = .ok (s', rest) → s'.snake ≠ [] ∧ s'.snake.Nodup :=
    fun s d s' rest hi h => snakeOk_makeStep s s' d rest hi h
  refine ⟨?_, hinit, hkey, htick⟩
  intro s hs
  induction hs with
  | init draws rest s h => exact hinit draws s rest h
  | key s name _ ih => exact hkey s name ih
  | tick s s' draws rest _ hstep ih => exact htick s draws s' rest ih hstep

/-- C10 at the four-segment reachable state `afterLeft`. -/
theorem snake_nonempty_nodup_witness :
    Reachable afterLeft ∧ afterLeft.snake ≠ [] ∧ afterLeft.snake.Nodup :=
  ⟨reachable_afterLeft, snake_nonempty_nodup.1 afterLeft reachable_afterLeft⟩

theorem isDirection_cases (v : Position) (h : isDirection v) :
    (v.x = 0 ∧ v.y = 0) ∨ (v.x = 1 ∧ v.y = 0) ∨ (v.x = -1 ∧ v.y = 0) ∨
    (v.x = 0 ∧ v.y = 1) ∨ (v.x = 0 ∧ v.y = -1) := by
  rcases h with h | h | h | h | h <;> subst h <;> simp [newPosition]

theorem commitMove_move_cases (s : GameState) :
    (commitMove s).move = s.nextMove ∨ (commitMove s).move = s.move := by
  unfold commitMove
  split
  · exact Or.inl rfl
  · exact Or.inr rfl

theorem commitMove_isDirection (s : GameState) (hm : isDirection s.move)
    (hn : isDirection s.nextMove) : isDirection (commitMove s).move := by
  rcases commitMove_move_cases s with h | h <;> rw [h] <;> assumption

theorem movePosition_inGrid (p m : Position) (hp : inGrid p) (hm : isDirection m) :
    inGrid (movePosition p m) := by
  obtain ⟨⟨hx0, hx1⟩, hy0, hy1⟩ := hp
  have hc := isDirection_cases m hm
  unfold inGrid movePosition processBound wrap16
  simp only
  refine ⟨⟨?_, ?_⟩, ?_, ?_⟩ <;> split_ifs <;> omega

theorem boundArgs_range (s : GameState) (head : Position) (hp : inGrid head)
    (hm : isDirection (commitMove s).move) :
    (-1 ≤ (boundArgs s head).1 ∧ (boundArgs s head).1 ≤ 20) ∧
    (-1 ≤ (boundArgs s head).2 ∧ (boundArgs s head).2 ≤ 20) := by
  obtain ⟨⟨hx0, hx1⟩, hy0, hy1⟩ := hp
  have hc := isDirection_cases _ hm
  unfold boundArgs wrap16
  simp only
  omega

theorem createKeyDownFunc_nextMove (s : GameState) (name : String)
    (h : isDirection s.nextMove) : isDirection (createKeyDownFunc s name).nextMove := by
  unfold createKeyDownFunc
  simp only
  split_ifs <;> first
    | exact h
    | exact Or.inr (Or.inl rfl)
    | exact Or.inr (Or.inr (Or.inl rfl))
    | exact Or.inr (Or.inr (Or.inr (Or.inl rfl)))
    | exact Or.inr (Or.inr (Or.inr (Or.inr rfl)))

theorem gridOk_default (a : Position) (ha : inGrid a) : gridOk (defaultState a) := by
  refine ⟨?_, ⟨a, rfl, ha⟩, Or.inl rfl, Or.inl rfl⟩
  intro p hp
  simp only [defaultState, List.mem_singleton] at hp
  subst hp
  decide

theorem gridOk_key (s : GameState) (name : String) (h : gridOk s) :
    gridOk (createKeyDownFunc s name) := by
  obtain ⟨h1, h2, h3, h4⟩ := h
  refine ⟨?_, ?_, ?_, createKeyDownFunc_nextMove s name h4⟩
  · rw [createKeyDownFunc_snake]; exact h1
  · rw [createKeyDownFunc_apple]; exact h2
  · rw [createKeyDownFunc_move]; exact h3

theorem gridOk_makeStep (s s' : GameState) (d rest : List Nat)
    (hi : gridOk s) (h : makeStep s d = .ok (s', rest)) : gridOk s' := by
  obtain ⟨h1, ⟨b, hb, hbg⟩, h3, h4⟩ := hi
  rcases makeStep_ok_cases s s' d rest h with ⟨_, rfl, _⟩ | ⟨head, _, hh, hcase⟩
  · exact ⟨h1, ⟨b, hb, hbg⟩, h3, h4⟩
  · rcases hcase with ⟨_, hnew⟩ | ⟨hc, a, ha, hcase⟩
    · obtain ⟨a, rfl, hg, _, _⟩ := newDefaultGameState_ok d rest s' hnew
      exact gridOk_default a hg
    · have hcm := commitMove_isDirection s h3 h4
      have hnh : inGrid (newHead s head) :=
        movePosition_inGrid head _ (h1 head (getHead_mem s head hh)) hcm
      have hext : ∀ p ∈ s.snake ++ [newHead s head], inGrid p := by
        intro p hp
        rw [List.mem_append, List.mem_singleton] at hp
        rcases hp with hp | rfl
        · exact h1 p hp
        · exact hnh
      have htl : ∀ p ∈ (s.snake ++ [newHead s head]).tail, inGrid p :=
        fun p hp => hext p (List.mem_of_mem_tail hp)
      have hnm : isDirection (extended s head).nextMove := by
        rw [extended_nextMove]; exact h4
      rw [ha] at hb
      cases hb
      rcases hcase with ⟨_, _, rfl⟩ | ⟨_, p, hg, rfl⟩
      · split_ifs
        · exact ⟨htl, ⟨b, by rw [← ha]; exact extended_apple s head, hbg⟩, hcm, hnm⟩
        · exact ⟨hext, ⟨b, by rw [← ha]; exact extended_apple s head, hbg⟩, hcm, hnm⟩
      · have hp := generateApplePosition_ok _ d rest p hg
        split_ifs
        · exact ⟨htl, ⟨p, rfl, hp.1, hp.2.1⟩, hcm, hnm⟩
        · exact ⟨hext, ⟨p, rfl, hp.1, hp.2.1⟩, hcm, hnm⟩

theorem gridOk_reachable (s : GameState) (h : Reachable s) : gridOk s := by
  induction h with
  | init draws rest s hs =>
    obtain ⟨a, rfl, hg, _, _⟩ := newDefaultGameState_ok draws rest s hs
    exact gridOk_default a hg
  | key s name _ ih => exact gridOk_key s name ih
  | tick s s' draws rest _ hstep ih => exact gridOk_makeStep s s' draws rest ih hstep

/-- C11: in every reachable state every snake segment and the apple have both
coordinates in [0,19], `move` and `nextMove` are each one of (0,0), (1,0),
(-1,0), (0,1), (0,-1), and the two values the next tick hands to `processBound`
lie in [-1,20]. -/
theorem grid_invariant (s : GameState) (h : Reachable s) :
    (∀ p ∈ s.snake, (0 ≤ p.x ∧ p.x ≤ 19) ∧ (0 ≤ p.y ∧ p.y ≤ 19)) ∧
    (∃ a, s.apple = some a ∧ (0 ≤ a.x ∧ a.x ≤ 19) ∧ (0 ≤ a.y ∧ a.y ≤ 19)) ∧
    (s.move = newPosition 0 0 ∨ s.move = newPosition 1 0 ∨ s.move = newPosition (-1) 0 ∨
      s.move = newPosition 0 1 ∨ s.move = newPosition 0 (-1)) ∧
    (s.nextMove = newPosition 0 0 ∨ s.nextMove = newPosition 1 0 ∨
      s.nextMove = newPosition (-1) 0 ∨ s.nextMove = newPosition 0 1 ∨
      s.nextMove = newPosition 0 (-1)) ∧
    (∀ head, getHead s = .ok head →
      newHead s head = newPosition (processBound (boundArgs s head).1)
        (processBound (boundArgs s head).2) ∧
      (-1 ≤ (boundArgs s head).1 ∧ (boundArgs s head).1 ≤ 20) ∧
      (-1 ≤ (boundArgs s head).2 ∧ (boundArgs s head).2 ≤ 20)) := by
  obtain ⟨h1, h2, h3, h4⟩ := gridOk_reachable s h
  refine ⟨h1, h2, h3, h4, ?_⟩
  intro head hh
  exact ⟨rfl, boundArgs_range s head (h1 head (getHead_mem s head hh))
    (commitMove_isDirection s h3 h4)⟩

/-- C11 at the reachable four-segment state about to turn up. -/
theorem grid_invariant_witness :
    Reachable squareState ∧
    (∀ p ∈ squareState.snake, (0 ≤ p.x ∧ p.x ≤ 19) ∧ (0 ≤ p.y ∧ p.y ≤ 19)) ∧
    (∀ head, getHead squareState = .ok head →
      newHead squareState head = newPosition (processBound (boundArgs squareState head).1)
        (processBound (boundArgs squareState head).2) ∧
      (-1 ≤ (boundArgs squareState head).1 ∧ (boundArgs squareState head).1 ≤ 20) ∧
      (-1 ≤ (boundArgs squareState head).2 ∧ (boundArgs squareState head).2 ≤ 20)) :=
  have h := grid_invariant squareState reachable_squareState
  ⟨reachable_squareState, h.1, h.2.2.2.2⟩

theorem growOrShrink_ok (t : GameState) (h : t.snake ≠ []) : ∃ t', growOrShrink t = .ok t' := by
  by_cases hp : t.points ≤ 0
  · exact ⟨_, growOrShrink_shrink t hp h⟩
  · exact ⟨_, growOrShrink_grow t (by omega)⟩

theorem getHead_extended (s : GameState) (head : Position) :
    getHead (extended s head) = .ok (newHead s head) :=
  getHead_concat (extended s head) s.snake (newHead s head) rfl

theorem getHead_commitMove (s : GameState) : getHead (commitMove s) = getHead s := by
  unfold getHead
  rw [commitMove_snake]

/-- A tick that returns without a collision completes: it stays running, with
the committed direction and the new head as last segment. -/
theorem makeStep_completes (s s' : GameState) (d rest : List Nat) (head : Position)
    (hr : s.running = true) (hh : getHead s = .ok head) (hc : newHead s head ∉ s.snake)
    (h : makeStep s d = .ok (s', rest)) :
    s'.running = true ∧ s'.move = (commitMove s).move ∧ s'.nextMove = s.nextMove ∧
    (s'.snake = s.snake ++ [newHead s head] ∨ s'.snake = (s.snake ++ [newHead s head]).tail) := by
  rcases makeStep_ok_cases s s' d rest h with ⟨hf, _, _⟩ | ⟨head', _, hh', hcase⟩
  · rw [hr] at hf; cases hf
  · rw [hh] at hh'
    cases hh'
    have hrun : (extended s head).running = true := by rw [extended_running, hr]
    have hnm : (extended s head).nextMove = s.nextMove := extended_nextMove s head
    rcases hcase with ⟨hc', _⟩ | ⟨_, a, _, hcase⟩
    · exact absurd hc' hc
    · rcases hcase with ⟨_, _, rfl⟩ | ⟨_, p, _, rfl⟩ <;> split_ifs
      · exact ⟨hrun, rfl, hnm, Or.inr rfl⟩
      · exact ⟨hrun, rfl, hnm, Or.inl rfl⟩
      · exact ⟨hrun, rfl, hnm, Or.inr rfl⟩
      · exact ⟨hrun, rfl, hnm, Or.inl rfl⟩

/-- No panic: on a state with a non-empty snake and an apple set, no index or
slice operation of `makeStep` is out of range (both `getHead` calls and
`snake[1:]` succeed), the tick never panics, and a tick that does not collide
and returns has run to its end; it returns for every outcome of the random
source when it does not eat, and as soon as a free cell is drawn when it does. -/
theorem makeStep_no_panic (s : GameState) (head a : Position) (d : List Nat)
    (hh : getHead s = .ok head) (ha : s.apple = some a) :
    (getHead (commitMove s) = .ok head ∧
      appendHead (commitMove s) = .ok (extended s head) ∧
      getHead (extended s head) = .ok (newHead s head) ∧
      (∀ t, t.snake = (extended s head).snake → ∃ t', growOrShrink t = .ok t')) ∧
    (∀ e, makeStep s d = .error e → e = .noAcceptedDraw) ∧
    (s.running = true → newHead s head ∉ s.snake →
      (∀ s' rest, makeStep s d = .ok (s', rest) →
        s'.running = true ∧ s'.move = (commitMove s).move ∧
        (s'.snake = s.snake ++ [newHead s head] ∨
          s'.snake = (s.snake ++ [newHead s head]).tail)) ∧
      (newHead s head ≠ a → ∃ s', makeStep s d = .ok (s', d))) ∧
    ((∃ p ∈ candidates d, p ∉ s.snake ++ [newHead s head] ∧ p ≠ newPosition 10 10) →
      ∃ s' rest, makeStep s d = .ok (s', rest)) := by
  obtain ⟨xs, hxs⟩ := getHead_ok s head hh
  refine ⟨⟨?_, appendHead_commit s xs head hxs, getHead_extended s head, ?_⟩, ?_, ?_, ?_⟩
  · rw [getHead_commitMove, hh]
  · intro t ht
    apply growOrShrink_ok
    rw [ht, extended_snake]
    simp
  · exact fun e h => makeStep_error s d head a e hh ha h
  · intro hr hc
    refine ⟨?_, ?_⟩
    · intro s' rest h
      have := makeStep_completes s s' d rest head hr hh hc h
      exact ⟨this.1, this.2.1, this.2.2.2⟩
    · intro hne
      exact ⟨_, makeStep_miss s d head a hr hh hc ha hne⟩
  · exact fun hd => makeStep_returns s d head a hh ha hd

/-- The tick after "ArrowDown" was pressed while moving right returns. -/
theorem makeStep_no_panic_witness :
    (∀ e, makeStep (createKeyDownFunc afterRight "ArrowDown") [] = .error e →
      e = .noAcceptedDraw) ∧
    makeStep (createKeyDownFunc afterRight "ArrowDown") [] = .ok (afterDown, []) :=
  ⟨(makeStep_no_panic (createKeyDownFunc afterRight "ArrowDown") (newPosition 11 10)
      (newPosition 0 0) [] rfl rfl).2.1, rfl⟩

theorem mem_gridCells (p : Position) : p ∈ gridCells ↔ inGrid p := by
  unfold gridCells inGrid
  simp only [List.mem_flatMap, List.mem_map, List.mem_range]
  constructor
  · rintro ⟨x, hx, y, hy, rfl⟩
    simp only [newPosition, Int.ofNat_eq_coe]
    omega
  · rintro ⟨⟨hx0, hx1⟩, hy0, hy1⟩
    refine ⟨p.x.toNat, ?_, p.y.toNat, ?_, ?_⟩
    · omega
    · omega
    · cases p
      simp only [newPosition, Position.mk.injEq, Int.ofNat_eq_coe] at *
      omega

theorem gridCells_length : gridCells.length = 400 := by
  simp [gridCells, Function.comp_def]

theorem candidates_inGrid (d : List Nat) : ∀ p ∈ candidates d, inGrid p := by
  generalize hn : d.length = n
  induction n using Nat.strong_induction_on generalizing d with
  | _ n ih =>
    match d, hn with
    | [], _ => simp [candidates_short]
    | [_], _ => simp [candidates_short]
    | r1 :: r2 :: tl, hn =>
      intro p hp
      rw [candidates_cons, List.mem_cons] at hp
      rcases hp with rfl | hp
      · simp only [inGrid, newPosition]
        omega
      · exact ih tl.length (by simp only [List.length_cons] at hn; omega) tl rfl p hp

theorem generateApplePosition_mem (s : GameState) (d rest : List Nat) (p : Position)
    (h : generateApplePosition s d = .ok (p, rest)) : p ∈ candidates d := by
  generalize hn : d.length = n at h
  induction n using Nat.strong_induction_on generalizing d with
  | _ n ih =>
    match d, hn with
    | [], _ => rw [generateApplePosition_short s [] (by simp)] at h; cases h
    | [a], _ => rw [generateApplePosition_short s [a] (by simp)] at h; cases h
    | r1 :: r2 :: tl, hn =>
      rw [generateApplePosition_cons] at h
      rw [candidates_cons, List.mem_cons]
      split at h
      · exact Or.inr (ih tl.length (by simp only [List.length_cons] at hn; omega) tl h rfl)
      · simp only [Except.ok.injEq, Prod.mk.injEq] at h
        exact Or.inl h.1.symm

/-- C13: every position `generateApplePosition` tries has both coordinates in
[0,19]; a round accepts its position exactly when no snake segment equals it;
a returned position is a grid cell off the snake; and some outcomes of the
random source make the loop return if and only if one of the 400 grid cells is
off the snake (when all are on it, the loop ends on no outcomes at all). -/
theorem rejection_sampling (s : GameState) :
    (∀ d, ∀ p ∈ candidates d, (0 ≤ p.x ∧ p.x ≤ 19) ∧ (0 ≤ p.y ∧ p.y ≤ 19)) ∧
    (∀ r1 r2 rest, generateApplePosition s (r1 :: r2 :: rest) =
      if newPosition ((r1 % 20 : Nat) : Int) ((r2 % 20 : Nat) : Int) ∈ s.snake then
        generateApplePosition s rest
      else .ok (newPosition ((r1 % 20 : Nat) : Int) ((r2 % 20 : Nat) : Int), rest)) ∧
    (∀ d p rest, generateApplePosition s d = .ok (p, rest) →
      p ∈ candidates d ∧ ((0 ≤ p.x ∧ p.x ≤ 19) ∧ (0 ≤ p.y ∧ p.y ≤ 19)) ∧ p ∉ s.snake) ∧
    ((∃ d p rest, generateApplePosition s d = .ok (p, rest)) ↔ ∃ p ∈ gridCells, p ∉ s.snake) ∧
    ((∀ p ∈ gridCells, p ∈ s.snake) → ∀ d, generateApplePosition s d = .error .noAcceptedDraw) ∧
    (gridCells.length = 400 ∧
      ∀ p, p ∈ gridCells ↔ (0 ≤ p.x ∧ p.x ≤ 19) ∧ (0 ≤ p.y ∧ p.y ≤ 19)) := by
  have hok : ∀ d p rest, generateApplePosition s d = .ok (p, rest) →
      p ∈ candidates d ∧ ((0 ≤ p.x ∧ p.x ≤ 19) ∧ (0 ≤ p.y ∧ p.y ≤ 19)) ∧ p ∉ s.snake := by
    intro d p rest h
    have := generateApplePosition_ok s d rest p h
    exact ⟨generateApplePosition_mem s d rest p h, ⟨this.1, this.2.1⟩, this.2.2.1⟩
  refine ⟨candidates_inGrid, generateApplePosition_cons s, hok, ⟨?_, ?_⟩, ?_,
    gridCells_length, mem_gridCells⟩
  · rintro ⟨d, p, rest, h⟩
    have := hok d p rest h
    exact ⟨p, (mem_gridCells p).2 this.2.1, this.2.2⟩
  · rintro ⟨p, hp, hps⟩
    have hg := (mem_gridCells p).1 hp
    exact ⟨_, p, [], generateApplePosition_accept s p hg.1 hg.2 hps []⟩
  · intro hfull d
    cases hg : generateApplePosition s d with
    | error e => rw [(generateApplePosition_error s d e hg).1]
    | ok pr =>
      obtain ⟨p, rest⟩ := pr
      have := hok d p rest hg
      exact absurd (hfull p ((mem_gridCells p).2 this.2.1)) this.2.2

theorem collision_eq_headCount (s : GameState) (head : Position) (h : getHead s = .ok head) :
    collision s = .ok (decide (headCount s.snake head ≥ 2)) := by
  unfold collision headCount
  rw [h]

theorem headCount_extended (xs : List Position) (h : Position) :
    headCount (xs ++ [h]) h ≥ 2 ↔ h ∈ xs := by
  have hc := collision_concat
    { snake := xs ++ [h], move := h, nextMove := h, points := 0, apple := none, running := true }
    xs h rfl
  rw [collision_eq_headCount _ h (getHead_concat _ xs h rfl)] at hc
  simp only [Except.ok.injEq, decide_eq_decide] at hc
  exact hc

/-- C15: in a running state with a non-empty snake, the collision test of
`makeStep` is true exactly when the wrapped new head equals a segment of the
pre-step snake, which is when at least two segments of the extended snake equal
the head; the tick then resets (it returns a stopped state), and otherwise it
does not (it returns a running state); a new head on the current tail cell
counts as a collision whatever `points` is. -/
theorem collision_criterion (s : GameState) (head : Position) (d : List Nat)
    (hr : s.running = true) (hh : getHead s = .ok head) :
    (appendHead (commitMove s) = .ok (extended s head) ∧
      collision (extended s head) = .ok (decide (newHead s head ∈ s.snake))) ∧
    (headCount (s.snake ++ [newHead s head]) (newHead s head) ≥ 2 ↔ newHead s head ∈ s.snake) ∧
    (newHead s head ∈ s.snake → makeStep s d = newDefaultGameState d) ∧
    (∀ s' rest, makeStep s d = .ok (s', rest) →
      (s'.running = false ↔ newHead s head ∈ s.snake)) ∧
    (∀ tl, s.snake = newHead s head :: tl → makeStep s d = newDefaultGameState d) := by
  obtain ⟨xs, hxs⟩ := getHead_ok s head hh
  refine ⟨⟨appendHead_commit s xs head hxs,
    collision_concat (extended s head) s.snake (newHead s head) rfl⟩,
    headCount_extended s.snake (newHead s head),
    fun hc => makeStep_collision s d head hr hh hc, ?_, ?_⟩
  · intro s' rest h
    by_cases hc : newHead s head ∈ s.snake
    · rw [makeStep_collision s d head hr hh hc] at h
      obtain ⟨a, rfl, _⟩ := newDefaultGameState_ok d rest s' h
      exact ⟨fun _ => hc, fun _ => rfl⟩
    · have := (makeStep_completes s s' d rest head hr hh hc h).1
      constructor
      · intro hf
        rw [this] at hf
        cases hf
      · exact fun hm => absurd hm hc
  · intro tl htl
    apply makeStep_collision s d head hr hh
    rw [htl]
    exact List.mem_cons_self _ _

/-- C15 at the square: with points = 0 the head moves onto the tail cell (10,10),
which the same tick would have vacated, and the tick resets. -/
theorem collision_criterion_witness :
    squareState.points = 0 ∧
    squareState.snake = newHead squareState (newPosition 10 11) ::
      [newPosition 11 10, newPosition 11 11, newPosition 10 11] ∧
    headCount (squareState.snake ++ [newHead squareState (newPosition 10 11)])
      (newHead squareState (newPosition 10 11)) = 2 ∧
    makeStep squareState [0, 0] = newDefaultGameState [0, 0] :=
  ⟨rfl, rfl, rfl,
    (collision_criterion squareState (newPosition 10 11) [0, 0] rfl rfl).2.2.2.2
      [newPosition 11 10, newPosition 11 11, newPosition 10 11] rfl⟩

theorem snakeOk_reachable (s : GameState) (h : Reachable s) : snakeOk s := by
  induction h with
  | init draws rest s hs =>
    obtain ⟨a, rfl, _⟩ := newDefaultGameState_ok draws rest s hs
    exact ⟨by simp [defaultState], by simp [defaultState]⟩
  | key s name _ ih =>
    unfold snakeOk
    rw [createKeyDownFunc_snake]
    exact ih
  | tick s s' draws rest _ hstep ih => exact snakeOk_makeStep s s' draws rest ih hstep

theorem appleFree_reachable (s : GameState) (h : Reachable s) : appleFree s := by
  induction h with
  | init draws rest s hs =>
    obtain ⟨a, rfl, _, hne, _⟩ := newDefaultGameState_ok draws rest s hs
    exact ⟨a, rfl, by simpa [defaultState] using hne⟩
  | key s name _ ih =>
    unfold appleFree
    rw [createKeyDownFunc_apple, createKeyDownFunc_snake]
    exact ih
  | tick s s' draws rest _ hstep ih => exact appleFree_makeStep s s' draws rest ih hstep

/-- A duplicate-free list of grid cells has at most 400 elements. -/
theorem length_le_of_nodup_inGrid (l : List Position) (hn : l.Nodup)
    (hg : ∀ p ∈ l, inGrid p) : l.length ≤ 400 := by
  have hsub : l ⊆ gridCells := fun p hp => (mem_gridCells p).2 (hg p hp)
  have := (List.subperm_of_subset hn hsub).length_le
  rw [gridCells_length] at this
  exact this

/-- C16: in every reachable state the snake has at most 400 segments (and, the
apple being a grid cell off the snake, at most 399). -/
theorem snake_length_bound (s : GameState) (h : Reachable s) :
    s.snake.length ≤ 400 ∧ s.snake.length ≤ 399 := by
  obtain ⟨hgs, ⟨a, ha, hag⟩, _, _⟩ := gridOk_reachable s h
  obtain ⟨b, hb, hbs⟩ := appleFree_reachable s h
  have hnd := (snakeOk_reachable s h).2
  rw [ha] at hb
  cases hb
  have h1 := length_le_of_nodup_inGrid s.snake hnd hgs
  have h2 := length_le_of_nodup_inGrid (a :: s.snake) (List.nodup_cons.2 ⟨hbs, hnd⟩)
    (by
      intro p hp
      rw [List.mem_cons] at hp
      rcases hp with rfl | hp
      · exact hag
      · exact hgs p hp)
  rw [List.length_cons] at h2
  exact ⟨h1, by omega⟩

/-- C16 at the reachable four-segment state `afterLeft`. -/
theorem snake_length_bound_witness :
    Reachable afterLeft ∧ afterLeft.snake.length = 4 ∧ afterLeft.snake.length ≤ 400 :=
  ⟨reachable_afterLeft, rfl, (snake_length_bound afterLeft reachable_afterLeft).1⟩

theorem pointsOk_makeStep (s s' : GameState) (d rest : List Nat)
    (hi : pointsOk s) (h : makeStep s d = .ok (s', rest)) : pointsOk s' := by
  obtain ⟨h0, h2⟩ := hi
  rcases makeStep_ok_cases s s' d rest h with ⟨_, rfl, _⟩ | ⟨head, _, hh, hcase⟩
  · exact ⟨h0, h2⟩
  · rcases hcase with ⟨_, hnew⟩ | ⟨hc, a, ha, hcase⟩
    · obtain ⟨a, rfl, _⟩ := newDefaultGameState_ok d rest s' hnew
      exact ⟨by show (0 : Int) ≤ 2; decide, by show (2 : Int) ≤ 2; decide⟩
    · have hw1 : wrap16 (s.points + 1) = s.points + 1 := wrap16_small _ (by omega) (by omega)
      have hw2 : wrap16 (s.points - 1) = s.points - 1 := wrap16_small _ (by omega) (by omega)
      have hw3 : wrap16 (s.points + 1 - 1) = s.points := by
        rw [wrap16_small _ (by omega) (by omega)]; omega
      rcases hcase with ⟨_, _, rfl⟩ | ⟨_, p, _, rfl⟩
      · by_cases hp : s.points ≤ 0
        · rw [if_pos hp]
          show 0 ≤ (extended s head).points ∧ (extended s head).points ≤ 2
          rw [extended_points]
          exact ⟨h0, h2⟩
        · rw [if_neg hp]
          show 0 ≤ wrap16 (s.points - 1) ∧ wrap16 (s.points - 1) ≤ 2
          rw [hw2]
          omega
      · rw [hw1, if_neg (by omega), hw3]
        exact ⟨h0, h2⟩

theorem pointsOk_reachable (s : GameState) (h : Reachable s) : pointsOk s := by
  induction h with
  | init draws rest s hs =>
    obtain ⟨a, rfl, _⟩ := newDefaultGameState_ok draws rest s hs
    exact ⟨by show (0 : Int) ≤ 2; decide, by show (2 : Int) ≤ 2; decide⟩
  | key s name _ ih =>
    unfold pointsOk
    rw [createKeyDownFunc_points]
    exact ih
  | tick s s' draws rest _ hstep ih => exact pointsOk_makeStep s s' draws rest ih hstep

/-- The sum of snake length and points across a tick that does not collide. -/
theorem makeStep_sum (s s' : GameState) (d rest : List Nat) (head a : Position)
    (hr : s.running = true) (hh : getHead s = .ok head) (ha : s.apple = some a)
    (hp : isInt16 s.points) (hlt : s.points < 32767) (hc : newHead s head ∉ s.snake)
    (h : makeStep s d = .ok (s', rest)) :
    (s'.snake.length : Int) + s'.points
      = (s.snake.length : Int) + s.points + (if newHead s head = a then 1 else 0) := by
  obtain ⟨hlo, _⟩ := hp
  obtain ⟨xs, hxs⟩ := getHead_ok s head hh
  have hlen : (s.snake ++ [newHead s head]).length = s.snake.length + 1 := by simp
  have htl : (s.snake ++ [newHead s head]).tail.length = s.snake.length := by simp
  by_cases hne : newHead s head = a
  · rw [if_pos hne]
    subst hne
    cases hg : generateApplePosition (extended s head) d with
    | error e =>
      rw [makeStep_hit_error s d head e hr hh hc ha hg] at h
      cases h
    | ok pr =>
      obtain ⟨p, r⟩ := pr
      rw [makeStep_hit s d r head p hr hh hc ha hg] at h
      simp only [Except.ok.injEq, Prod.mk.injEq] at h
      obtain ⟨rfl, _⟩ := h
      have hw1 : wrap16 (s.points + 1) = s.points + 1 := wrap16_small _ (by omega) (by omega)
      rw [hw1]
      by_cases hq : s.points + 1 ≤ 0
      · rw [if_pos hq]
        show (((s.snake ++ [newHead s head]).tail.length : Nat) : Int) + (s.points + 1) = _
        rw [htl]
        omega
      · rw [if_neg hq]
        show (((s.snake ++ [newHead s head]).length : Nat) : Int) + wrap16 (s.points + 1 - 1) = _
        rw [hlen, wrap16_small _ (by omega) (by omega)]
        push_cast
        omega
  · rw [if_neg hne, makeStep_miss s d head a hr hh hc ha hne] at *
    simp only [Except.ok.injEq, Prod.mk.injEq] at h
    obtain ⟨rfl, _⟩ := h
    by_cases hq : s.points ≤ 0
    · rw [if_pos hq]
      show (((s.snake ++ [newHead s head]).tail.length : Nat) : Int) + (extended s head).points = _
      rw [htl, extended_points]
      omega
    · rw [if_neg hq]
      show (((s.snake ++ [newHead s head]).length : Nat) : Int) + wrap16 (s.points - 1) = _
      rw [hlen, wrap16_small _ (by omega) (by omega)]
      push_cast
      omega

/-- C17: across a tick of a running state with points < 32767 that does not
collide, length + points grows by 1 when the new head is on the apple and is
unchanged otherwise; in every reachable state 0 <= points <= 2; and a reachable
tick that eats returns a snake exactly one segment longer with points unchanged. -/
theorem length_plus_points :
    (∀ s s' d rest head a, s.running = true → getHead s = .ok head → s.apple = some a →
      isInt16 s.points → s.points < 32767 → newHead s head ∉ s.snake →
      makeStep s d = .ok (s', rest) →
      (s'.snake.length : Int) + s'.points
        = (s.snake.length : Int) + s.points + (if newHead s head = a then 1 else 0)) ∧
    (∀ s, Reachable s → 0 ≤ s.points ∧ s.points ≤ 2) ∧
    (∀ s s' d rest head, Reachable s → s.running = true → getHead s = .ok head →
      newHead s head ∉ s.snake → s.apple = some (newHead s head) →
      makeStep s d = .ok (s', rest) →
      s'.snake.length = s.snake.length + 1 ∧ s'.points = s.points) := by
  refine ⟨?_, pointsOk_reachable, ?_⟩
  · intro s s' d rest head a hr hh ha hp hlt hc h
    exact makeStep_sum s s' d rest head a hr hh ha hp hlt hc h
  · intro s s' d rest head hreach hr hh hc ha h
    obtain ⟨h0, h2⟩ := pointsOk_reachable s hreach
    have := makeStep_eats s s' d rest head hr hh hc ha h0 (by omega) h
    refine ⟨?_, this.2.2.1⟩
    rw [this.2.1]
    simp

/-- C17 on the first tick of the game that starts with the apple at (11,10): the
tick eats, length + points goes from 1 + 2 to 2 + 2. -/
theorem length_plus_points_witness :
    makeStep (createKeyDownFunc (defaultState (newPosition 11 10)) "ArrowRight") [0, 0]
      = .ok (afterRight, []) ∧
    (afterRight.snake.length : Int) + afterRight.points
      = ((createKeyDownFunc (defaultState (newPosition 11 10)) "ArrowRight").snake.length : Int)
        + (createKeyDownFunc (defaultState (newPosition 11 10)) "ArrowRight").points
        + (if newHead (createKeyDownFunc (defaultState (newPosition 11 10)) "ArrowRight")
              (newPosition 10 10) = newPosition 11 10 then 1 else 0) ∧
    (0 ≤ afterRight.points ∧ afterRight.points ≤ 2) :=
  ⟨rfl,
    length_plus_points.1 (createKeyDownFunc (defaultState (newPosition 11 10)) "ArrowRight")
      afterRight [0, 0] [] (newPosition 10 10) (newPosition 11 10) rfl rfl rfl
      (by decide) (by decide) (by decide) rfl,
    length_plus_points.2.1 afterRight reachable_afterRight⟩

theorem processBound_mod (n a : Int) (hn : 0 ≤ n ∧ n ≤ 19) (ha : -1 ≤ a ∧ a ≤ 1) :
    processBound (wrap16 (n + a)) = (n + a) % 20 := by
  unfold processBound wrap16
  split_ifs <;> omega

theorem movePosition_zero (p : Position) (hp : inGrid p) :
    movePosition p (newPosition 0 0) = p := by
  obtain ⟨hx, hy⟩ := hp
  cases p
  simp only [movePosition, newPosition] at *
  rw [processBound_mod _ 0 hx (by omega), processBound_mod _ 0 hy (by omega)]
  simp only [Position.mk.injEq]
  omega

theorem commitMove_zero (s : GameState) (hm : s.move = newPosition 0 0)
    (hn : s.nextMove = newPosition 0 0) : (commitMove s).move = newPosition 0 0 := by
  rcases commitMove_move_cases s with h | h <;> rw [h] <;> assumption

/-- A running state with both direction fields zero and its head in the grid
resets on the tick. -/
theorem makeStep_zero_move (s : GameState) (head : Position) (d : List Nat)
    (hr : s.running = true) (hm : s.move = newPosition 0 0) (hn : s.nextMove = newPosition 0 0)
    (hh : getHead s = .ok head) (hg : inGrid head) :
    newHead s head = head ∧ newHead s head ∈ s.snake ∧ makeStep s d = newDefaultGameState d := by
  have h1 : newHead s head = head := by
    unfold newHead
    rw [commitMove_zero s hm hn]
    exact movePosition_zero head hg
  have h2 : newHead s head ∈ s.snake := by
    rw [h1]
    exact getHead_mem s head hh
  exact ⟨h1, h2, makeStep_collision s d head hr hh h2⟩

/-- C19: the default state after a key whose name starts with "Arrow" but is none
of the four recognized names is running with move = nextMove = (0,0); on the
next tick the new head equals the old head (10,10), two segments of the extended
snake equal the head, and the state becomes a fresh default state with running =
false.  The same holds for every running state with both direction fields zero
and its head in the grid. -/
theorem zero_move_resets (d0 r0 d : List Nat) (s0 : GameState) (name : String)
    (h0 : newDefaultGameState d0 = .ok (s0, r0))
    (hp : stringsHasPrefix name ARROW_PREFIX = true)
    (hl : name ≠ ARROW_LEFT) (hr : name ≠ ARROW_RIGHT) (hu : name ≠ ARROW_UP)
    (hd : name ≠ ARROW_DOWN) :
    ((createKeyDownFunc s0 name).running = true ∧
      (createKeyDownFunc s0 name).move = newPosition 0 0 ∧
      (createKeyDownFunc s0 name).nextMove = newPosition 0 0) ∧
    (getHead (createKeyDownFunc s0 name) = .ok (newPosition 10 10) ∧
      newHead (createKeyDownFunc s0 name) (newPosition 10 10) = newPosition 10 10 ∧
      headCount ((createKeyDownFunc s0 name).snake ++ [newPosition 10 10]) (newPosition 10 10)
        ≥ 2) ∧
    makeStep (createKeyDownFunc s0 name) d = newDefaultGameState d ∧
    (∀ s' rest, makeStep (createKeyDownFunc s0 name) d = .ok (s', rest) →
      s'.running = false ∧ ∃ a, s' = defaultState a ∧ inGrid a ∧ a ≠ newPosition 10 10) ∧
    ((∃ p ∈ candidates d, p ≠ newPosition 10 10) →
      ∃ s' rest, makeStep (createKeyDownFunc s0 name) d = .ok (s', rest)) ∧
    (∀ s head, s.running = true → s.move = newPosition 0 0 → s.nextMove = newPosition 0 0 →
      getHead s = .ok head → inGrid head →
      newHead s head = head ∧ headCount (s.snake ++ [head]) head ≥ 2 ∧
      makeStep s d = newDefaultGameState d) := by
  obtain ⟨a, rfl, _, _, _⟩ := newDefaultGameState_ok d0 r0 s0 h0
  have hk : createKeyDownFunc (defaultState a) name = { defaultState a with running := true } := by
    unfold createKeyDownFunc
    simp only [hl, hr, hu, hd, hp, if_false, if_true]
  have hgen : ∀ s head, s.running = true → s.move = newPosition 0 0 →
      s.nextMove = newPosition 0 0 → getHead s = .ok head → inGrid head →
      newHead s head = head ∧ headCount (s.snake ++ [head]) head ≥ 2 ∧
      makeStep s d = newDefaultGameState d := by
    intro s head hrun hm hn hh hg
    obtain ⟨e1, e2, e3⟩ := makeStep_zero_move s head d hrun hm hn hh hg
    refine ⟨e1, ?_, e3⟩
    rw [e1] at e2
    exact (headCount_extended s.snake head).2 e2
  rw [hk]
  have hrun : ({ defaultState a with running := true } : GameState).running = true := rfl
  have hhd : getHead ({ defaultState a with running := true } : GameState)
      = .ok (newPosition 10 10) := rfl
  obtain ⟨e1, e2, e3⟩ := hgen _ (newPosition 10 10) hrun rfl rfl hhd (by decide)
  refine ⟨⟨rfl, rfl, rfl⟩, ⟨hhd, e1, e2⟩, e3, ?_, ?_, hgen⟩
  · intro s' rest h
    rw [e3] at h
    obtain ⟨b, rfl, hb, hne, _⟩ := newDefaultGameState_ok d rest s' h
    exact ⟨rfl, b, rfl, hb, hne⟩
  · intro hc
    rw [e3]
    exact newDefaultGameState_returns d hc

/-- C19 with the key "ArrowX" pressed on the default state whose apple is at (3,4). -/
theorem zero_move_resets_witness :
    newDefaultGameState [3, 4] = .ok (defaultState (newPosition 3 4), []) ∧
    (createKeyDownFunc (defaultState (newPosition 3 4)) "ArrowX").running = true ∧
    makeStep (createKeyDownFunc (defaultState (newPosition 3 4)) "ArrowX") [7, 7]
      = newDefaultGameState [7, 7] ∧
    newDefaultGameState [7, 7] = .ok (defaultState (newPosition 7 7), []) :=
  ⟨rfl, rfl,
    (zero_move_resets [3, 4] [] [7, 7] (defaultState (newPosition 3 4)) "ArrowX" rfl
      (by decide) (by decide) (by decide) (by decide) (by decide)).2.2.1, rfl⟩

theorem suffix_two_concat (ys : List Position) (a b c e : Position)
    (h : [a, b] <:+ ys ++ [c] ++ [e]) : a = c ∧ b = e := by
  have h' := List.reverse_prefix.2 h
  simp only [List.reverse_append, List.reverse_cons, List.reverse_nil, List.nil_append,
    List.singleton_append, List.cons_append] at h'
  rw [List.cons_prefix_cons, List.cons_prefix_cons] at h'
  exact ⟨h'.2.1, h'.1⟩

theorem movePosition_back (neck m m' : Position) (hg : inGrid neck) (hm : isDirection m)
    (hm' : isDirection m') (h : movePosition (movePosition neck m) m' = neck) :
    m' = negate m := by
  obtain ⟨hx, hy⟩ := hg
  have c := isDirection_cases m hm
  have c' := isDirection_cases m' hm'
  have hx1 : processBound (wrap16 (neck.x + m.x)) = (neck.x + m.x) % 20 :=
    processBound_mod _ _ hx (by omega)
  have hy1 : processBound (wrap16 (neck.y + m.y)) = (neck.y + m.y) % 20 :=
    processBound_mod _ _ hy (by omega)
  have ex := congrArg Position.x h
  have ey := congrArg Position.y h
  simp only [movePosition] at ex ey
  rw [hx1, processBound_mod _ _ (by omega) (by omega)] at ex
  rw [hy1, processBound_mod _ _ (by omega) (by omega)] at ey
  rw [Position.eq_iff]
  simp only [negate, newPosition]
  omega

theorem isUnit_ne_negate (m : Position) (h : isUnit m) : m ≠ negate m := by
  rcases h with h | h | h | h <;> rw [h] <;> decide

theorem isUnit_of_direction (m : Position) (h : isDirection m) (hne : m ≠ newPosition 0 0) :
    isUnit m := by
  rcases h with h | h
  · exact absurd h hne
  · exact h

theorem commitMove_ne_negate (s : GameState) (hu : isUnit s.move) :
    (commitMove s).move ≠ negate s.move := by
  by_cases hn : s.nextMove = negate s.move
  · rw [commitMove_reverse s hu hn]
    exact isUnit_ne_negate s.move hu
  · rw [commitMove_turn s hu hn]
    exact hn

theorem neckOk_makeStep (s s' : GameState) (d rest : List Nat)
    (hg : gridOk s) (hi : neckOk s) (h : makeStep s d = .ok (s', rest)) : neckOk s' := by
  cases hr : s.running with
  | false =>
    rw [makeStep_stopped s d hr] at h
    simp only [Except.ok.injEq, Prod.mk.injEq] at h
    rw [← h.1]
    exact hi
  | true =>
    rcases List.eq_nil_or_concat s.snake with hnil | ⟨ys, head, hl⟩
    · rw [makeStep_empty s d hr hnil] at h
      cases h
    · rw [List.concat_eq_append] at hl
      have hh : getHead s = .ok head := getHead_concat s ys head hl
      by_cases hc : newHead s head ∈ s.snake
      · rw [makeStep_collision s d head hr hh hc] at h
        obtain ⟨a, rfl, _⟩ := newDefaultGameState_ok d rest s' h
        intro neck hd hsuf
        have := hsuf.length_le
        simp [defaultState] at this
      · obtain ⟨_, hmv, _, hsn⟩ := makeStep_completes s s' d rest head hr hh hc h
        obtain ⟨hgs, _, hgm, hgn⟩ := hg
        have hhg : inGrid head := hgs head (getHead_mem s head hh)
        have hcd : isDirection (commitMove s).move := commitMove_isDirection s hgm hgn
        have hne : (commitMove s).move ≠ newPosition 0 0 := by
          intro hz
          apply hc
          unfold newHead
          rw [hz, movePosition_zero head hhg]
          exact getHead_mem s head hh
        intro neck hd hsuf
        have hsuf' : [neck, hd] <:+ ys ++ [head] ++ [newHead s head] := by
          rw [← hl]
          rcases hsn with e | e
          · rw [e] at hsuf; exact hsuf
          · rw [e] at hsuf
            exact hsuf.trans (List.tail_suffix _)
        obtain ⟨rfl, rfl⟩ := suffix_two_concat ys neck hd head (newHead s head) hsuf'
        rw [hmv]
        exact ⟨rfl, isUnit_of_direction _ hcd hne⟩

theorem neckOk_reachable (s : GameState) (h : Reachable s) : neckOk s := by
  induction h with
  | init draws rest s hs =>
    obtain ⟨a, rfl, _⟩ := newDefaultGameState_ok draws rest s hs
    intro neck hd hsuf
    have := hsuf.length_le
    simp [defaultState] at this
  | key s name _ ih =>
    unfold neckOk
    rw [createKeyDownFunc_snake, createKeyDownFunc_move]
    exact ih
  | tick s s' draws rest hs hstep ih =>
    exact neckOk_makeStep s s' draws rest (gridOk_reachable s hs) ih hstep

theorem reachable_pressKeys (names : List String) (s : GameState) (h : Reachable s) :
    Reachable (pressKeys s names) := by
  induction names generalizing s with
  | nil => exact h
  | cons n ns ih => exact ih (createKeyDownFunc s n) (Reachable.key s n h)

/-- C18: in every reachable state whose snake ends in a neck and a head, the head
is the neck moved by `move`, `move` is a non-zero (unit) direction, and whatever
keys are pressed before the next tick, the new head that tick computes is not
the neck. -/
theorem neck_never_hit (s : GameState) (xs : List Position) (neck head : Position)
    (keys : List String) (h : Reachable s) (hs : s.snake = xs ++ [neck, head]) :
    head = movePosition neck s.move ∧ s.move ≠ newPosition 0 0 ∧ isUnit s.move ∧
    getHead (pressKeys s keys) = .ok head ∧
    newHead (pressKeys s keys) head ≠ neck := by
  have hsuf : [neck, head] <:+ s.snake := ⟨xs, hs.symm⟩
  obtain ⟨hmv, hu⟩ := neckOk_reachable s h neck head hsuf
  have hz : s.move ≠ newPosition 0 0 := by
    rcases hu with e | e | e | e <;> rw [e] <;> decide
  have hf := pressKeys_frame keys s
  have hk := reachable_pressKeys keys s h
  obtain ⟨_, _, hkm, hkn⟩ := gridOk_reachable _ hk
  obtain ⟨hgs, _, hgm, _⟩ := gridOk_reachable s h
  have hng : inGrid neck := hgs neck (by rw [hs]; simp)
  have hhd : getHead (pressKeys s keys) = .ok head :=
    getHead_concat _ (xs ++ [neck]) head (by rw [hf.1, hs]; simp)
  refine ⟨hmv, hz, hu, hhd, ?_⟩
  intro hback
  unfold newHead at hback
  rw [hmv] at hback
  have hneg := movePosition_back neck s.move _ hng hgm
    (commitMove_isDirection _ hkm hkn) hback
  have hu' : isUnit (pressKeys s keys).move := by rw [hf.2.2.2.1]; exact hu
  have := commitMove_ne_negate (pressKeys s keys) hu'
  rw [hf.2.2.2.1] at this
  exact this hneg

/-- C18 at the reachable state `afterDown` (neck (11,10), head (11,11), moving
down) with "ArrowUp" pressed: the reversal is refused and the new head is (11,12). -/
theorem neck_never_hit_witness :
    Reachable afterDown ∧
    newPosition 11 11 = movePosition (newPosition 11 10) afterDown.move ∧
    newHead (pressKeys afterDown ["ArrowUp"]) (newPosition 11 11) = newPosition 11 12 ∧
    newHead (pressKeys afterDown ["ArrowUp"]) (newPosition 11 11) ≠ newPosition 11 10 :=
  have h := neck_never_hit afterDown [newPosition 10 10] (newPosition 11 10) (newPosition 11 11)
    ["ArrowUp"] reachable_afterDown rfl
  ⟨reachable_afterDown, h.1, rfl, h.2.2.2.2⟩

theorem pathCell_inGrid (k : Nat) : inGrid (pathCell k) := by
  simp only [inGrid, pathCell, newPosition, Int.ofNat_eq_coe]
  omega

theorem pathCell_inj (i j : Nat) (hi : i < 400) (hj : j < 400) (h : pathCell i = pathCell j) :
    i = j := by
  simp only [pathCell, newPosition, Position.mk.injEq, Int.ofNat_eq_coe] at h
  omega

theorem pathCell_surj (p : Position) (hp : inGrid p) : ∃ k, k < 400 ∧ pathCell k = p := by
  obtain ⟨hx, hy⟩ := hp
  obtain ⟨x, hxe⟩ := Int.eq_ofNat_of_zero_le hx.1
  obtain ⟨y, hye⟩ := Int.eq_ofNat_of_zero_le hy.1
  have hx20 : x < 20 := by omega
  have hy20 : y < 20 := by omega
  refine ⟨20 * ((y + 10) % 20) + (x + 10 + (y + 10) % 20) % 20, by omega, ?_⟩
  have h1 : (20 * ((y + 10) % 20) + (x + 10 + (y + 10) % 20) % 20) / 20 = (y + 10) % 20 := by
    omega
  have h2 : (20 * ((y + 10) % 20) + (x + 10 + (y + 10) % 20) % 20) % 20
      = (x + 10 + (y + 10) % 20) % 20 := by omega
  rw [Position.eq_iff]
  simp only [pathCell, newPosition, Int.ofNat_eq_coe, h1, h2, hxe, hye]
  constructor
  · norm_cast
    omega
  · norm_cast
    omega

theorem pathDir_isUnit (k : Nat) : isUnit (pathDir k) := by
  unfold pathDir
  split_ifs
  · exact Or.inr (Or.inr (Or.inl rfl))
  · exact Or.inl rfl

theorem pathDir_ne_negate (i j : Nat) : pathDir i ≠ negate (pathDir j) := by
  unfold pathDir
  split_ifs <;> decide

theorem pathCell_step (k : Nat) : movePosition (pathCell k) (pathDir k) = pathCell (k + 1) := by
  have hg := pathCell_inGrid k
  obtain ⟨hx, hy⟩ := hg
  unfold pathDir
  split_ifs with h
  · simp only [movePosition, newPosition]
    rw [processBound_mod _ 0 hx (by omega), processBound_mod _ 1 hy (by omega)]
    simp only [pathCell, newPosition, Position.mk.injEq, Int.ofNat_eq_coe] at *
    omega
  · simp only [movePosition, newPosition]
    rw [processBound_mod _ 1 hx (by omega), processBound_mod _ 0 hy (by omega)]
    simp only [pathCell, newPosition, Position.mk.injEq, Int.ofNat_eq_coe] at *
    omega

theorem pathCell_not_mem (k n : Nat) (hk : k < 400) (hn : n ≤ k) :
    pathCell k ∉ (List.range n).map pathCell := by
  intro hm
  rw [List.mem_map] at hm
  obtain ⟨i, hi, he⟩ := hm
  rw [List.mem_range] at hi
  have := pathCell_inj i k (by omega) hk he
  omega

theorem createKeyDownFunc_pathKey (s : GameState) (k : Nat) (hr : s.running = true) :
    createKeyDownFunc s (pathKey k) = { s with nextMove := pathDir k } := by
  unfold pathKey pathDir
  split_ifs
  · have : createKeyDownFunc s "ArrowDown"
        = { s with nextMove := newPosition 0 1, running := true } := rfl
    rw [this, ← hr]
  · have : createKeyDownFunc s "ArrowRight"
        = { s with nextMove := newPosition 1 0, running := true } := rfl
    rw [this, ← hr]

theorem pathState_snake (k : Nat) :
    (pathState k).snake = (List.range k).map pathCell ++ [pathCell k] := by
  simp only [pathState, List.range_succ, List.map_append, List.map_cons, List.map_nil]

theorem pathState_snake_succ (k : Nat) :
    (pathState (k + 1)).snake = (pathState k).snake ++ [pathCell (k + 1)] := by
  simp only [pathState, List.range_succ, List.map_append, List.map_cons, List.map_nil]

/-- One tick along the path: after the key for the next direction, the tick
eats the apple on the next cell and the next apple is drawn one cell further. -/
theorem makeStep_pathState (k : Nat) (hk : k + 2 < 400) :
    makeStep (createKeyDownFunc (pathState k) (pathKey k))
        [(pathCell (k + 2)).x.toNat, (pathCell (k + 2)).y.toNat]
      = .ok (pathState (k + 1), []) := by
  rw [createKeyDownFunc_pathKey (pathState k) k rfl]
  have hsn : ({ pathState k with nextMove := pathDir k } : GameState).snake
      = (List.range k).map pathCell ++ [pathCell k] := by
    simp only [pathState, List.range_succ, List.map_append, List.map_cons, List.map_nil]
  have hh : getHead ({ pathState k with nextMove := pathDir k } : GameState) = .ok (pathCell k) :=
    getHead_concat _ _ _ hsn
  have hcm : (commitMove ({ pathState k with nextMove := pathDir k } : GameState)).move
      = pathDir k :=
    commitMove_turn _ (pathDir_isUnit (k - 1)) (pathDir_ne_negate k (k - 1))
  have hnh : newHead ({ pathState k with nextMove := pathDir k } : GameState) (pathCell k)
      = pathCell (k + 1) := by
    unfold newHead
    rw [hcm]
    exact pathCell_step k
  have hc : newHead ({ pathState k with nextMove := pathDir k } : GameState) (pathCell k)
      ∉ ({ pathState k with nextMove := pathDir k } : GameState).snake := by
    rw [hnh]
    exact pathCell_not_mem (k + 1) (k + 1) (by omega) (Nat.le_refl _)
  have ha : ({ pathState k with nextMove := pathDir k } : GameState).apple
      = some (newHead ({ pathState k with nextMove := pathDir k } : GameState) (pathCell k)) := by
    rw [hnh]
    rfl
  have hfree : pathCell (k + 2)
      ∉ (extended ({ pathState k with nextMove := pathDir k } : GameState) (pathCell k)).snake := by
    rw [extended_snake, hnh]
    have := pathCell_not_mem (k + 2) (k + 2) (by omega) (Nat.le_refl _)
    simpa only [List.range_succ, List.map_append, List.map_cons, List.map_nil, pathState,
      List.append_assoc] using this
  have hg := generateApplePosition_accept
    (extended ({ pathState k with nextMove := pathDir k } : GameState) (pathCell k))
    (pathCell (k + 2)) (pathCell_inGrid (k + 2)).1 (pathCell_inGrid (k + 2)).2 hfree []
  rw [makeStep_hit _ _ [] (pathCell k) (pathCell (k + 2)) rfl hh hc ha hg]
  have hw : wrap16 ((2 : Int) + 1) = 3 := by rfl
  have hw' : wrap16 ((3 : Int) - 1) = 2 := by rfl
  have hpts : ({ pathState k with nextMove := pathDir k } : GameState).points = 2 := rfl
  rw [hpts, hw, if_neg (by decide), hw']
  congr 1
  rw [Prod.mk.injEq]
  refine ⟨?_, rfl⟩
  have e1 : (extended ({ pathState k with nextMove := pathDir k } : GameState) (pathCell k)).snake
      = (pathState (k + 1)).snake := by
    rw [extended_snake, hnh, pathState_snake_succ]
  have e2 : (extended ({ pathState k with nextMove := pathDir k } : GameState) (pathCell k)).move
      = pathDir k := hcm
  have e3 : (extended ({ pathState k with nextMove := pathDir k } : GameState)
      (pathCell k)).nextMove = pathDir k := extended_nextMove _ _
  have e4 : (extended ({ pathState k with nextMove := pathDir k } : GameState)
      (pathCell k)).running = true := extended_running _ _
  simp only [e1, e2, e3, e4]
  rfl

theorem reachable_pathState_one : Reachable (pathState 1) :=
  Reachable.tick (createKeyDownFunc (defaultState (newPosition 11 10)) "ArrowRight") (pathState 1)
    [12, 10] []
    (Reachable.key _ "ArrowRight" (Reachable.init [11, 10] [] (defaultState (newPosition 11 10)) rfl))
    rfl

theorem reachable_pathState (k : Nat) (hk : k + 2 < 400) : Reachable (pathState (k + 1)) := by
  induction k with
  | zero => exact reachable_pathState_one
  | succ n ih =>
    exact Reachable.tick _ _ _ []
      (Reachable.key (pathState (n + 1)) (pathKey (n + 1)) (ih (by omega)))
      (makeStep_pathState (n + 1) (by omega))

theorem generateApplePosition_full (s : GameState) (d : List Nat)
    (hfull : ∀ p, inGrid p → p ∈ s.snake) :
    generateApplePosition s d = .error .noAcceptedDraw := by
  cases hg : generateApplePosition s d with
  | error e => rw [(generateApplePosition_error s d e hg).1]
  | ok pr =>
    obtain ⟨p, rest⟩ := pr
    have := generateApplePosition_ok s d rest p hg
    exact absurd (hfull p ⟨this.1, this.2.1⟩) this.2.2.1

/-- C14 fails on the code: the state `pathState 398` is reachable (398 ticks along
the path, each eating the apple drawn on the next cell); it is running, its
snake has 399 segments, and its apple (10,9) is the last free cell, straight
ahead of the head.  The next tick does not collide and eats, so it calls
`generateApplePosition` on the extended snake, which holds every one of the 400
grid cells: the rejection loop ends on no outcomes of the random source, and
neither does the tick. -/
theorem full_grid_apple_generation :
    Reachable (pathState 398) ∧
    (pathState 398).running = true ∧
    (pathState 398).snake.length = 399 ∧
    getHead (pathState 398) = .ok (pathCell 398) ∧
    newHead (pathState 398) (pathCell 398) = newPosition 10 9 ∧
    newHead (pathState 398) (pathCell 398) ∉ (pathState 398).snake ∧
    (pathState 398).apple = some (newHead (pathState 398) (pathCell 398)) ∧
    (∀ p ∈ gridCells, p ∈ (extended (pathState 398) (pathCell 398)).snake) ∧
    (∀ d, eatApple (extended (pathState 398) (pathCell 398)) d = .error .noAcceptedDraw) ∧
    (∀ d, generateApplePosition (extended (pathState 398) (pathCell 398)) d
      = .error .noAcceptedDraw) ∧
    (∀ d, makeStep (pathState 398) d = .error .noAcceptedDraw) := by
  have hsn : (pathState 398).snake = (List.range 398).map pathCell ++ [pathCell 398] :=
    pathState_snake 398
  have hh : getHead (pathState 398) = .ok (pathCell 398) := getHead_concat _ _ _ hsn
  have hcm : (commitMove (pathState 398)).move = pathDir 398 :=
    commitMove_turn _ (pathDir_isUnit 397) (pathDir_ne_negate 397 397)
  have hnh : newHead (pathState 398) (pathCell 398) = pathCell 399 := by
    unfold newHead
    rw [hcm]
    exact pathCell_step 398
  have h399 : pathCell 399 = newPosition 10 9 := by decide
  have hc : newHead (pathState 398) (pathCell 398) ∉ (pathState 398).snake := by
    rw [hnh]
    exact pathCell_not_mem 399 399 (by omega) (Nat.le_refl _)
  have ha : (pathState 398).apple = some (newHead (pathState 398) (pathCell 398)) := by
    rw [hnh]
    rfl
  have hfull : ∀ p, inGrid p → p ∈ (extended (pathState 398) (pathCell 398)).snake := by
    intro p hp
    obtain ⟨k, hk, rfl⟩ := pathCell_surj p hp
    rw [extended_snake, hnh, List.mem_append, List.mem_singleton]
    by_cases h9 : k = 399
    · exact Or.inr (by rw [h9])
    · left
      show pathCell k ∈ (List.range (398 + 1)).map pathCell
      exact List.mem_map.2 ⟨k, List.mem_range.2 (by omega), rfl⟩
  have hgen : ∀ d, generateApplePosition (extended (pathState 398) (pathCell 398)) d
      = .error .noAcceptedDraw := fun d => generateApplePosition_full _ d hfull
  refine ⟨reachable_pathState 397 (by omega), rfl, ?_, hh, by rw [hnh, h399], hc, ha,
    fun p hp => hfull p ((mem_gridCells p).1 hp), ?_, hgen, ?_⟩
  · simp only [pathState, List.length_map, List.length_range]
  · intro d
    rw [eatApple_hit (extended (pathState 398) (pathCell 398)) d (pathState 398).snake
      (newHead (pathState 398) (pathCell 398)) rfl (by rw [extended_apple, ha]), hgen]
  · intro d
    exact makeStep_hit_error (pathState 398) d (pathCell 398) .noAcceptedDraw rfl hh hc ha
      (hgen d)

/-- The last tick of the game that fills the grid: the head of `pathState 398`
moves onto the apple, the last free cell, and the tick returns on no outcomes of
the random source. -/
theorem pathState_last_tick :
    getHead (pathState 398) = .ok (pathCell 398) ∧
    newHead (pathState 398) (pathCell 398) = pathCell 399 ∧
    newHead (pathState 398) (pathCell 398) ∉ (pathState 398).snake ∧
    (pathState 398).apple = some (newHead (pathState 398) (pathCell 398)) ∧
    (∀ p, inGrid p → p ∈ (pathState 398).snake ++ [newHead (pathState 398) (pathCell 398)]) ∧
    (∀ d, makeStep (pathState 398) d = .error .noAcceptedDraw) := by
  have hh : getHead (pathState 398) = .ok (pathCell 398) :=
    getHead_concat _ _ _ (pathState_snake 398)
  have hcm : (commitMove (pathState 398)).move = pathDir 398 :=
    commitMove_turn _ (pathDir_isUnit 397) (pathDir_ne_negate 397 397)
  have hnh : newHead (pathState 398) (pathCell 398) = pathCell 399 := by
    unfold newHead
    rw [hcm]
    exact pathCell_step 398
  have hc : newHead (pathState 398) (pathCell 398) ∉ (pathState 398).snake := by
    rw [hnh]
    exact pathCell_not_mem 399 399 (by omega) (Nat.le_refl _)
  have ha : (pathState 398).apple = some (newHead (pathState 398) (pathCell 398)) := by
    rw [hnh]
    rfl
  have hfull : ∀ p, inGrid p →
      p ∈ (pathState 398).snake ++ [newHead (pathState 398) (pathCell 398)] := by
    intro p hp
    obtain ⟨k, hk, rfl⟩ := pathCell_surj p hp
    rw [hnh, List.mem_append, List.mem_singleton]
    by_cases h9 : k = 399
    · exact Or.inr (by rw [h9])
    · left
      show pathCell k ∈ (List.range (398 + 1)).map pathCell
      exact List.mem_map.2 ⟨k, List.mem_range.2 (by omega), rfl⟩
  refine ⟨hh, hnh, hc, ha, hfull, ?_⟩
  intro d
  exact makeStep_hit_error (pathState 398) d (pathCell 398) .noAcceptedDraw rfl hh hc ha
    (generateApplePosition_full _ d (by rw [extended_snake]; exact hfull))

/-- C5 fails on the code at the reachable state `pathState 398`: it is running
with points = 2, its tick does not collide and its new head (10,9) is the apple,
so the claim promises a snake one segment longer and a new apple on a grid cell
off the extended snake; but the extended snake holds every grid cell, no such
cell exists, and `makeStep` returns no state on any outcomes of the random
source. -/
theorem eating_last_free_cell_never_returns :
    Reachable (pathState 398) ∧
    (pathState 398).running = true ∧
    (0 ≤ (pathState 398).points ∧ (pathState 398).points < 32767) ∧
    getHead (pathState 398) = .ok (pathCell 398) ∧
    newHead (pathState 398) (pathCell 398) = newPosition 10 9 ∧
    newHead (pathState 398) (pathCell 398) ∉ (pathState 398).snake ∧
    (pathState 398).apple = some (newHead (pathState 398) (pathCell 398)) ∧
    (¬ ∃ p, inGrid p ∧
      p ∉ (pathState 398).snake ++ [newHead (pathState 398) (pathCell 398)]) ∧
    (∀ d s' rest, makeStep (pathState 398) d ≠ .ok (s', rest)) := by
  obtain ⟨hh, hnh, hc, ha, hfull, herr⟩ := pathState_last_tick
  have h399 : pathCell 399 = newPosition 10 9 := by decide
  refine ⟨reachable_pathState 397 (by omega), rfl, ⟨by decide, by decide⟩, hh,
    by rw [hnh, h399], hc, ha, ?_, ?_⟩
  · rintro ⟨p, hp, hnot⟩
    exact hnot (hfull p hp)
  · intro d s' rest h
    rw [herr d] at h
    cases h

/-- C12 fails on the code at the reachable state `pathState 398`: the snake is
non-empty and the apple is set, the tick is running and does not collide (so it
is not the reset branch), no index or slice is out of range, and yet `makeStep`
returns no state on any outcomes of the random source: the eating branch never
leaves the rejection loop. -/
theorem well_formed_tick_never_returns :
    Reachable (pathState 398) ∧
    (pathState 398).snake ≠ [] ∧
    (∃ a, (pathState 398).apple = some a) ∧
    (pathState 398).running = true ∧
    (getHead (commitMove (pathState 398)) = .ok (pathCell 398) ∧
      getHead (extended (pathState 398) (pathCell 398))
        = .ok (newHead (pathState 398) (pathCell 398))) ∧
    collision (extended (pathState 398) (pathCell 398)) = .ok false ∧
    (∀ d, makeStep (pathState 398) d = .error .noAcceptedDraw) ∧
    (∀ d s' rest, makeStep (pathState 398) d ≠ .ok (s', rest)) := by
  obtain ⟨hh, _, hc, ha, _, herr⟩ := pathState_last_tick
  refine ⟨reachable_pathState 397 (by omega), ?_, ⟨_, ha⟩, rfl,
    ⟨by rw [getHead_commitMove, hh], getHead_extended _ _⟩, ?_, herr, ?_⟩
  · rw [pathState_snake]
    simp
  · rw [collision_concat (extended (pathState 398) (pathCell 398)) (pathState 398).snake
      (newHead (pathState 398) (pathCell 398)) rfl]
    simp only [hc, decide_False]
  · intro d s' rest h
    rw [herr d] at h
    cases h

end Snake
